import Mathlib

/-!
Shallow embedding of the PodcastIndex proxy worker (`src/index.ts`) for the
pod.nostr.blue repository.

The worker's own code (NIP-98 validation pipeline, URL normalization wrapper,
hex decoding, path policy tables, request dispatch) is translated directly.
Platform primitives the code calls (`new URL`, `URLSearchParams`,
`Array.prototype.sort`, `atob`, `JSON.stringify`, `String.prototype` methods)
are modelled from their WHATWG / ECMA-262 specifications on the fragment of
inputs the worker exercises; cryptographic externals (`sha256` from
@noble/hashes and `schnorr.verify` from @noble/curves) are abstract function
parameters, since they are external collaborators whose internals the
repository does not define.

Machine integers are modelled as `Nat`/`Int`; strings as Lean `String`
(sequences of Unicode scalar values, which agrees with JS strings on the
BMP-without-surrogates fragment all concrete inputs here inhabit).
-/

namespace PodProxy

/-! ### ECMA-262 character classes -/

/-- Line terminators of ECMA-262 (`\n`, `\r`, U+2028, U+2029); these are the
characters `.` does not match in a JS regular expression without the `s` flag. -/
def isLineTerminator (c : Char) : Bool :=
  c.toNat == 0x0A || c.toNat == 0x0D || c.toNat == 0x2028 || c.toNat == 0x2029

/-- White-space characters matched by `\s` in ECMA-262 (WhiteSpace ∪
LineTerminator): TAB, LF, VT, FF, CR, SP, NBSP, and the Unicode space
separators, ZWNBSP. -/
def isJsWhitespace (c : Char) : Bool :=
  let n := c.toNat
  n == 0x09 || n == 0x0A || n == 0x0B || n == 0x0C || n == 0x0D || n == 0x20 ||
  n == 0xA0 || n == 0x1680 || (0x2000 ≤ n && n ≤ 0x200A) ||
  n == 0x2028 || n == 0x2029 || n == 0x202F || n == 0x205F || n == 0x3000 ||
  n == 0xFEFF

/-- ASCII-whitespace of the WHATWG infra standard (used by forgiving-base64 /
`atob`): TAB, LF, FF, CR, SP. -/
def isAsciiWhitespace (c : Char) : Bool :=
  c.toNat == 0x09 || c.toNat == 0x0A || c.toNat == 0x0C || c.toNat == 0x0D ||
  c.toNat == 0x20

/-- ASCII lower-casing of a character, as `String.prototype.toLowerCase`
performs on the ASCII range (all concrete strings handled by the worker are
ASCII; the full-Unicode case map agrees with this on them). -/
def asciiLower (c : Char) : Char :=
  if 0x41 ≤ c.toNat && c.toNat ≤ 0x5A then Char.ofNat (c.toNat + 32) else c

/-- ASCII upper-casing of a character, as `String.prototype.toUpperCase`
performs on the ASCII range. -/
def asciiUpper (c : Char) : Char :=
  if 0x61 ≤ c.toNat && c.toNat ≤ 0x7A then Char.ofNat (c.toNat - 32) else c

/-- Model of `String.prototype.toLowerCase` on the ASCII fragment. -/
def jsToLower (s : String) : String := String.mk (s.toList.map asciiLower)

/-- Model of `String.prototype.toUpperCase` on the ASCII fragment. -/
def jsToUpper (s : String) : String := String.mk (s.toList.map asciiUpper)

/-- Model of `String.prototype.trim`: strip the ECMA-262 white-space set from
both ends. -/
def jsTrim (s : String) : String :=
  String.mk (((s.toList.dropWhile isJsWhitespace).reverse.dropWhile
    isJsWhitespace).reverse)

/-- Numeric value of a hexadecimal digit, `none` for other characters. -/
def hexDigitVal (c : Char) : Option Nat :=
  let n := c.toNat
  if 0x30 ≤ n && n ≤ 0x39 then some (n - 0x30)
  else if 0x41 ≤ n && n ≤ 0x46 then some (n - 0x41 + 10)
  else if 0x61 ≤ n && n ≤ 0x66 then some (n - 0x61 + 10)
  else none

def isHexDigit (c : Char) : Bool := (hexDigitVal c).isSome

/-! ### UTF-8 encoding and decoding

`TextEncoder`, the URLSearchParams parser/serializer, and percent-coding all
work on UTF-8 bytes; these model the standard encoding. -/

/-- UTF-8 encoding of one Unicode scalar value. -/
def utf8EncodeChar (c : Char) : List Nat :=
  let n := c.toNat
  if n < 0x80 then [n]
  else if n < 0x800 then [0xC0 + n / 0x40, 0x80 + n % 0x40]
  else if n < 0x10000 then
    [0xE0 + n / 0x1000, 0x80 + (n / 0x40) % 0x40, 0x80 + n % 0x40]
  else
    [0xF0 + n / 0x40000, 0x80 + (n / 0x1000) % 0x40, 0x80 + (n / 0x40) % 0x40,
     0x80 + n % 0x40]

/-- UTF-8 bytes of a string, as `new TextEncoder().encode(s)` produces. -/
def utf8Bytes (s : String) : List Nat := (s.toList.map utf8EncodeChar).flatten

/-- Whether a byte is a UTF-8 continuation byte (10xxxxxx). -/
def isCont (b : Nat) : Bool := 0x80 ≤ b && b ≤ 0xBF

/-- UTF-8 decoding with U+FFFD replacement on errors, as the WHATWG UTF-8
decoder used by `URLSearchParams` does (error recovery is modelled as
replace-one-byte-and-continue, which agrees with the standard on the
concrete inputs considered here; all of them are valid ASCII). -/
def utf8Decode : List Nat → List Char
  | [] => []
  | b :: rest =>
    let onInvalid := Char.ofNat 0xFFFD :: utf8Decode rest
    if b < 0x80 then Char.ofNat b :: utf8Decode rest
    else if 0xC2 ≤ b && b ≤ 0xDF then
      match rest with
      | b2 :: r2 =>
        if isCont b2 then Char.ofNat ((b - 0xC0) * 0x40 + (b2 - 0x80)) :: utf8Decode r2
        else onInvalid
      | [] => [Char.ofNat 0xFFFD]
    else if 0xE0 ≤ b && b ≤ 0xEF then
      match rest with
      | b2 :: b3 :: r3 =>
        if isCont b2 && isCont b3 then
          let n := (b - 0xE0) * 0x1000 + (b2 - 0x80) * 0x40 + (b3 - 0x80)
          if n < 0x800 || (0xD800 ≤ n && n ≤ 0xDFFF) then onInvalid
          else Char.ofNat n :: utf8Decode r3
        else onInvalid
      | _ => [Char.ofNat 0xFFFD]
    else if 0xF0 ≤ b && b ≤ 0xF4 then
      match rest with
      | b2 :: b3 :: b4 :: r4 =>
        if isCont b2 && isCont b3 && isCont b4 then
          let n := (b - 0xF0) * 0x40000 + (b2 - 0x80) * 0x1000 +
                   (b3 - 0x80) * 0x40 + (b4 - 0x80)
          if n < 0x10000 || 0x10FFFF < n then onInvalid
          else Char.ofNat n :: utf8Decode r4
        else onInvalid
      | _ => [Char.ofNat 0xFFFD]
    else onInvalid

/-! ### application/x-www-form-urlencoded parsing and serialization

Model of the WHATWG `URLSearchParams` machinery the worker's
`normalizeUrlForComparison` relies on. -/

/-- Two lowercase hex digits of a byte. -/
def byteToHexLower (b : Nat) : List Char :=
  let d (n : Nat) : Char :=
    if n < 10 then Char.ofNat (0x30 + n) else Char.ofNat (0x61 + n - 10)
  [d (b / 16 % 16), d (b % 16)]

/-- Two uppercase hex digits of a byte (percent-encoding uses uppercase). -/
def byteToHexUpper (b : Nat) : List Char :=
  let d (n : Nat) : Char :=
    if n < 10 then Char.ofNat (0x30 + n) else Char.ofNat (0x41 + n - 10)
  [d (b / 16 % 16), d (b % 16)]

/-- Percent-decoding of a form-urlencoded component into bytes: `+` becomes
space, a valid `%XX` becomes the byte `XX`, an invalid `%` sequence and every
other character pass through as their UTF-8 bytes. -/
def formDecodeBytes : List Char → List Nat
  | [] => []
  | c :: rest =>
    let onBadPercent := utf8EncodeChar '%' ++ formDecodeBytes rest
    if c = '+' then 0x20 :: formDecodeBytes rest
    else if c = '%' then
      match rest with
      | h1 :: h2 :: r2 =>
        match hexDigitVal h1, hexDigitVal h2 with
        | some v1, some v2 => (v1 * 16 + v2) :: formDecodeBytes r2
        | _, _ => onBadPercent
      | _ => onBadPercent
    else utf8EncodeChar c ++ formDecodeBytes rest

/-- Full percent-decoding of a form-urlencoded component to a string. -/
def formDecode (l : List Char) : List Char := utf8Decode (formDecodeBytes l)

/-- Characters the form-urlencoded serializer leaves unescaped:
alphanumerics, `*`, `-`, `.`, `_`. -/
def formSafe (b : Nat) : Bool :=
  (0x30 ≤ b && b ≤ 0x39) || (0x41 ≤ b && b ≤ 0x5A) || (0x61 ≤ b && b ≤ 0x7A) ||
  b == 0x2A || b == 0x2D || b == 0x2E || b == 0x5F

/-- Form-urlencoded serialization of one component: space to `+`, safe bytes
verbatim, everything else `%XX`. -/
def formEncode (l : List Char) : List Char :=
  ((utf8Bytes (String.mk l)).map (fun b =>
    if b == 0x20 then ['+']
    else if formSafe b then [Char.ofNat b]
    else '%' :: byteToHexUpper b)).flatten

/-- Splitting a character list at every occurrence of a separator.  Always
returns at least one (possibly empty) segment. -/
def splitOnChar (sep : Char) : List Char → List (List Char)
  | [] => [[]]
  | c :: rest =>
    match splitOnChar sep rest with
    | [] => [[c]]
    | s :: ss => if c = sep then [] :: s :: ss else (c :: s) :: ss

/-- Splitting a query string at `&`, as the urlencoded parser does. -/
def splitAmp (l : List Char) : List (List Char) := splitOnChar '&' l

/-- Name/value split of one `&`-segment at its first `=` (a segment without
`=` has an empty value), with percent-decoding of both sides. -/
def pairOfSegment (seg : List Char) : List Char × List Char :=
  (formDecode (seg.takeWhile (· ≠ '=')),
   formDecode ((seg.dropWhile (· ≠ '=')).drop 1))

/-- Model of `[...new URLSearchParams(query).entries()]` on a raw query string
(without its leading `?`): split at `&`, skip empty segments, split each
segment at its first `=`, percent-decode names and values. -/
def queryEntries (q : List Char) : List (List Char × List Char) :=
  ((splitAmp q).filter (· ≠ [])).map pairOfSegment

/-! ### The default `Array.prototype.sort` comparator and a stable sort

`[...entries].sort()` uses the default comparator, which converts each
element to a string and compares UTF-16 code units.  An entry `[name, value]`
converts to `name + "," + value`.  `Array.prototype.sort` is required to be
stable (ES2019), so the result is the unique stable sort by that key; a
head-insertion sort that inserts each element before the first
not-smaller key reproduces it. -/

/-- Code-unit-wise lexicographic `≤` on char lists (agrees with JS string
comparison away from surrogates). -/
def lexLe : List Char → List Char → Bool
  | [], _ => true
  | _ :: _, [] => false
  | a :: as, b :: bs =>
    if a.toNat < b.toNat then true
    else if b.toNat < a.toNat then false
    else lexLe as bs

/-- Sort key of one query entry: `name + "," + value`, the
`Array.prototype.toString` image the default comparator compares. -/
def entryKey (p : List Char × List Char) : List Char := p.1 ++ ',' :: p.2

/-- Insert an element before the first existing element whose key is not
smaller (stable insertion). -/
def insertEntry (p : List Char × List Char) :
    List (List Char × List Char) → List (List Char × List Char)
  | [] => [p]
  | q :: qs =>
    if lexLe (entryKey p) (entryKey q) then p :: q :: qs
    else q :: insertEntry p qs

/-- Stable sort of the entries by the default-comparator key: the model of
`[...params.entries()].sort()`. -/
def sortEntries : List (List Char × List Char) → List (List Char × List Char)
  | [] => []
  | p :: ps => insertEntry p (sortEntries ps)

/-- Model of `new URLSearchParams(pairs).toString()`: serialize each pair as
`name=value` with form-urlencoding and join with `&`. -/
def serializeEntries (l : List (List Char × List Char)) : List Char :=
  match l with
  | [] => []
  | [p] => formEncode p.1 ++ '=' :: formEncode p.2
  | p :: rest => formEncode p.1 ++ '=' :: formEncode p.2 ++ '&' :: serializeEntries rest

/-! ### URL parsing model

Model of `new URL(s)` restricted to the fragment of absolute http/https URLs
on which the WHATWG parser is the identity on the path and query as written:
lowercase ASCII host, no userinfo, no `#` fragment, no dot-segments or
characters the parser would percent-encode in the path.  On this domain
`url.origin`, `url.pathname` and `url.search` are exactly the pieces of the
input string, which is what the worker's normalization reads back. -/

structure UrlParts where
  origin : List Char
  pathname : List Char
  query : List Char
  deriving DecidableEq, Repr

/-- Characters accepted by this model in the path: printable ASCII except
the characters a WHATWG parser would transform there (`"`, `<`, `>`,
backquote, braces, backslash, `#`, `?`, space, controls, non-ASCII). -/
def pathSafe (c : Char) : Bool :=
  let n := c.toNat
  0x20 < n && n < 0x7F && n ≠ 0x22 && n ≠ 0x3C && n ≠ 0x3E && n ≠ 0x60 &&
  n ≠ 0x7B && n ≠ 0x7D && n ≠ 0x5C && n ≠ 0x23 && n ≠ 0x3F

/-- Characters accepted in a host: lowercase ASCII letters, digits, `.`, `-`
(hosts the WHATWG host parser returns unchanged). -/
def hostSafe (c : Char) : Bool :=
  let n := c.toNat
  (0x61 ≤ n && n ≤ 0x7A) || (0x30 ≤ n && n ≤ 0x39) || n == 0x2E || n == 0x2D

/-- Splitting a character list at `/` (used to detect dot-segments). -/
def splitSlash (l : List Char) : List (List Char) := splitOnChar '/' l

/-- Numeric value of a digit string (used for port normalization). -/
def digitsToNat (l : List Char) : Nat :=
  l.foldl (fun acc c => acc * 10 + (c.toNat - 0x30)) 0

/-- Path validity: nonempty, starts with `/`, safe characters, and no `.` or
`..` segments (which the parser would collapse). -/
def pathOk (p : List Char) : Bool :=
  match p with
  | '/' :: _ =>
    p.all pathSafe &&
    (splitSlash p).all (fun seg => seg ≠ ['.'] && seg ≠ ['.', '.'])
  | _ => false

/-- Parse `scheme://host[:port]` + path from the part of the URL before any
`?`, producing the serialized origin and pathname.  Returns `none` outside
the modelled fragment. -/
def parseBase (l : List Char) : Option (List Char × List Char) :=
  let schemeStr := String.mk (l.takeWhile (· ≠ ':'))
  let isHttps := schemeStr = "https"
  if schemeStr ≠ "http" ∧ ¬ isHttps then none
  else
    let afterScheme := (l.dropWhile (· ≠ ':')).drop 1
    match afterScheme with
    | '/' :: '/' :: hostAndPath =>
      let auth := hostAndPath.takeWhile (· ≠ '/')
      let path := hostAndPath.dropWhile (· ≠ '/')
      if auth.contains '@' ∨ auth.contains '[' then none
      else
        let host := auth.takeWhile (· ≠ ':')
        let portChars := (auth.dropWhile (· ≠ ':')).drop 1
        if host.isEmpty ∨ ¬ host.all hostSafe ∨ ¬ portChars.all Char.isDigit then
          none
        else
          let defaultPort : Nat := if isHttps then 443 else 80
          let portPart : List Char :=
            if portChars.isEmpty then []
            else
              let n := digitsToNat portChars
              if n = defaultPort then [] else ':' :: Nat.toDigits 10 n
          let pathname := if path.isEmpty then ['/'] else path
          if pathOk pathname then
            some (schemeStr.toList ++ ':' :: '/' :: '/' :: host ++ portPart,
                  pathname)
          else none
    | _ => none

/-- Model of `new URL(s)` on the modelled fragment: reject fragments (`#`),
split at the first `?`, parse the base, keep the raw query. -/
def parseUrlModel (s : String) : Option UrlParts :=
  if s.toList.contains '#' then none
  else
    match parseBase (s.toList.takeWhile (· ≠ '?')) with
    | none => none
    | some (origin, pathname) =>
      some ⟨origin, pathname, (s.toList.dropWhile (· ≠ '?')).drop 1⟩

/-- Lines 32–45 of `src/index.ts`, `normalizeUrlForComparison`: parse the
URL, sort its query entries with the default array sort, rebuild
`origin + pathname + ('?' + sorted if nonempty)`; if parsing fails, strip one
trailing `&` or `?` (the `/[&?]$/` replace). -/
def normalizeUrlForComparison (urlStr : String) : String :=
  match parseUrlModel urlStr with
  | some u =>
    String.mk (u.origin ++ u.pathname ++
      (if (serializeEntries (sortEntries (queryEntries u.query))).isEmpty then []
       else '?' :: serializeEntries (sortEntries (queryEntries u.query))))
  | none =>
    match urlStr.toList.getLast? with
    | some c => if c = '&' ∨ c = '?' then String.mk urlStr.toList.dropLast else urlStr
    | none => urlStr

/-! ### Hex strings -/

/-- Model of `bytesToHex` from @noble/hashes: two lowercase hex digits per
byte. -/
def bytesToHex (bytes : List Nat) : String :=
  String.mk (bytes.map byteToHexLower).flatten

/-- Model of ECMA-262 `parseInt(s, 16)` as used on 1–2 character slices:
strip leading white space, optional sign, optional `0x`/`0X`, then the
maximal run of hex digits; `none` models `NaN` (no digits). -/
def parseIntHex (s : String) : Option Int :=
  let l := s.toList.dropWhile isJsWhitespace
  let signAndRest : Int × List Char :=
    match l with
    | '-' :: t => (-1, t)
    | '+' :: t => (1, t)
    | t => (1, t)
  let afterHexMark : List Char :=
    match signAndRest.2 with
    | '0' :: 'x' :: t => t
    | '0' :: 'X' :: t => t
    | t => t
  let digits := afterHexMark.takeWhile isHexDigit
  if digits.isEmpty then none
  else
    some (signAndRest.1 *
      (digits.foldl (fun acc c => acc * 16 + ((hexDigitVal c).getD 0)) 0 : Nat))

/-- ECMA-262 `ToUint8`, the conversion applied when storing into a
`Uint8Array`: `NaN` becomes 0, other integers wrap modulo 256. -/
def toUint8 : Option Int → Nat
  | none => 0
  | some v => (v % 256).toNat

/-- Lines 148–154 of `src/index.ts`, `hexToBytes`: allocate
`Uint8Array(hex.length / 2)` (`ToIndex` truncates the fractional length an
odd-length string produces) and store `parseInt(hex.substring(i, i+2), 16)`
at `i / 2` for `i = 0, 2, ...`; for odd length the final 1-character
iteration writes past the end of the typed array, which JS ignores.  Net
effect: one byte per full 2-character slice. -/
def hexToBytes (hex : String) : List Nat :=
  let l := hex.toList
  (List.range (l.length / 2)).map
    (fun i => toUint8 (parseIntHex (String.mk ((l.drop (2 * i)).take 2))))

/-! ### JSON values and `JSON.stringify`

JSON numbers are modelled as integers (every concrete value in this
development — kinds, Unix timestamps — is one, and integers below 2^53
print identically in Lean and JS). -/

inductive JsVal where
  | null
  | bool (b : Bool)
  | num (n : Int)
  | str (s : String)
  | arr (elements : List JsVal)
  | obj (fields : List (String × JsVal))
  deriving Repr

/-- JSON string escaping as `JSON.stringify` performs it (`QuoteJSONString`):
quote, backslash, the named control escapes, `\u00xx` for other controls. -/
def jsonEscapeChar (c : Char) : List Char :=
  if c = '"' then ['\\', '"']
  else if c = '\\' then ['\\', '\\']
  else if c.toNat = 8 then ['\\', 'b']
  else if c.toNat = 9 then ['\\', 't']
  else if c.toNat = 10 then ['\\', 'n']
  else if c.toNat = 12 then ['\\', 'f']
  else if c.toNat = 13 then ['\\', 'r']
  else if c.toNat < 0x20 then '\\' :: 'u' :: '0' :: '0' :: byteToHexLower c.toNat
  else [c]

def jsonQuote (s : String) : List Char :=
  '"' :: (s.toList.map jsonEscapeChar).flatten ++ ['"']

mutual

/-- Model of `JSON.stringify` without a space argument: compact output, no
whitespace between tokens, fields and elements in order. -/
def jsonStringify : JsVal → List Char
  | .null => "null".toList
  | .bool b => (if b then "true" else "false").toList
  | .num n => (toString n).toList
  | .str s => jsonQuote s
  | .arr elements => '[' :: jsonStringifyList elements ++ [']']
  | .obj fields =>
    Char.ofNat 0x7B :: jsonStringifyFields fields ++ [Char.ofNat 0x7D]

def jsonStringifyList : List JsVal → List Char
  | [] => []
  | [v] => jsonStringify v
  | v :: rest => jsonStringify v ++ ',' :: jsonStringifyList rest

def jsonStringifyFields : List (String × JsVal) → List Char
  | [] => []
  | [f] => jsonQuote f.1 ++ ':' :: jsonStringify f.2
  | f :: rest => jsonQuote f.1 ++ ':' :: jsonStringify f.2 ++ ',' :: jsonStringifyFields rest

end

/-! ### The worker's data model -/

/-- The `NostrEvent` interface of `src/index.ts` (the decoded NIP-98
credential). -/
structure NostrEvent where
  id : String
  pubkey : String
  created_at : Int
  kind : Int
  tags : List (List String)
  content : String
  sig : String
  deriving Repr, DecidableEq

/-- The worker's `Env` bindings. `NOSTR_AUTH_MODE` and
`NOSTR_ALLOWED_PUBKEYS` are optional; the two PodcastIndex credentials are
plain strings (possibly empty, which JS treats as falsy). -/
structure Env where
  PODCAST_INDEX_KEY : String
  PODCAST_INDEX_SECRET : String
  NOSTR_AUTH_MODE : Option String
  NOSTR_ALLOWED_PUBKEYS : Option String
  deriving Repr, DecidableEq

/-- Line 132: `env.NOSTR_AUTH_MODE || "open"` — JS `||` also replaces the
empty string (falsy). -/
def authModeOf (env : Env) : String :=
  match env.NOSTR_AUTH_MODE with
  | none => "open"
  | some m => if m = "" then "open" else m

/-- Lines 134–137: split the configured pubkey list at commas, trim and
lower-case each entry, drop empties. -/
def allowedPubkeysOf (env : Env) : List String :=
  (((splitOnChar ',' (env.NOSTR_ALLOWED_PUBKEYS.getD "").toList).map
    (fun p => jsToLower (jsTrim (String.mk p)))).filter (fun p => p ≠ ""))

/-- Rejection reasons of the validator, one per distinct rejection site of
`validateNip98Auth` (spec taxonomy names; the code returns corresponding
message strings). -/
inductive Rejection where
  | wrongKind
  | expired
  | urlMismatch
  | methodMismatch
  | digestMismatch
  | sigInvalid
  | notWhitelisted
  deriving Repr, DecidableEq

/-- Outcome of running the validator on a decoded event: success with the
pubkey, a returned rejection, or an uncaught JS exception. -/
inductive VResult where
  | ok (pubkey : String)
  | rejected (r : Rejection)
  | thrown
  deriving Repr, DecidableEq

/-- The canonical serialization of lines 104–111:
`JSON.stringify([0, pubkey, created_at, kind, tags, content])`. -/
def serializeEvent (ev : NostrEvent) : String :=
  String.mk (jsonStringify (JsVal.arr
    [JsVal.num 0, JsVal.str ev.pubkey, JsVal.num ev.created_at,
     JsVal.num ev.kind,
     JsVal.arr (ev.tags.map (fun t => JsVal.arr (t.map JsVal.str))),
     JsVal.str ev.content]))

/-- Lines 103–144 of `validateNip98Auth`: event-id recomputation, schnorr
verification (the abstract `verify` returning `false` covers both a `false`
result and a thrown-and-caught error from @noble, which the code maps to the
same rejection), then the whitelist check.  `sha` abstracts
`sha256` from @noble/hashes. -/
def validateFromDigest (sha : List Nat → List Nat)
    (verify : List Nat → List Nat → List Nat → Bool)
    (ev : NostrEvent) (env : Env) : VResult :=
  let hashBytes := sha (utf8Bytes (serializeEvent ev))
  let computedId := bytesToHex hashBytes
  if computedId ≠ ev.id then .rejected .digestMismatch
  else if ¬ verify (hexToBytes ev.sig) hashBytes (hexToBytes ev.pubkey) then
    .rejected .sigInvalid
  else if authModeOf env = "whitelist" then
    if ¬ (allowedPubkeysOf env).contains (jsToLower ev.pubkey) then
      .rejected .notWhitelisted
    else .ok ev.pubkey
  else .ok ev.pubkey

/-- The `event.tags.find((t) => t[0] === "u")` of line 84 (`t[0]` on an empty
tag is `undefined`, which never strict-equals a string). -/
def findUrlTag (ev : NostrEvent) : Option (List String) :=
  ev.tags.find? (fun t => t.head? == some "u")

/-- The `event.tags.find((t) => t[0] === "method")` of line 95. -/
def findMethodTag (ev : NostrEvent) : Option (List String) :=
  ev.tags.find? (fun t => t.head? == some "method")

/-- Lines 83–101 of `validateNip98Auth`: the `u` and `method` tag checks.
`tags.find` takes the first tag whose element 0 matches; a found tag with no
element 1 makes the code throw (`normalizeUrlForComparison(undefined)`
re-throws from its catch block; `methodTag[1].toUpperCase()` throws), hence
`.thrown`.  The `!normalizedEventUrl` guard also rejects when normalization
returns the empty string (falsy). -/
def validateFromUrl (sha : List Nat → List Nat)
    (verify : List Nat → List Nat → List Nat → Bool)
    (ev : NostrEvent) (requestUrl requestMethod : String) (env : Env) : VResult :=
  match findUrlTag ev with
  | none => .rejected .urlMismatch
  | some urlTag =>
    match urlTag[1]? with
    | none => .thrown
    | some u =>
      let normalizedRequestUrl := normalizeUrlForComparison requestUrl
      let normalizedEventUrl := normalizeUrlForComparison u
      if normalizedEventUrl = "" ∨ normalizedEventUrl ≠ normalizedRequestUrl then
        .rejected .urlMismatch
      else
        match findMethodTag ev with
        | none => .rejected .methodMismatch
        | some methodTag =>
          match methodTag[1]? with
          | none => .thrown
          | some m =>
            if jsToUpper m ≠ jsToUpper requestMethod then
              .rejected .methodMismatch
            else validateFromDigest sha verify ev env

/-- Lines 72–144 of `validateNip98Auth`, from the point where an event has
been decoded: kind check, timestamp window, then the tail of the pipeline.
`now` is `Math.floor(Date.now() / 1000)` passed explicitly. -/
def validate (sha : List Nat → List Nat)
    (verify : List Nat → List Nat → List Nat → Bool)
    (ev : NostrEvent) (requestUrl requestMethod : String) (now : Int)
    (env : Env) : VResult :=
  if ev.kind ≠ 27235 then .rejected .wrongKind
  else if 60 < (now - ev.created_at).natAbs then .rejected .expired
  else validateFromUrl sha verify ev requestUrl requestMethod env

/-! ### Check predicates (used to state the claims about `validate`) -/

def kindCheck (ev : NostrEvent) : Bool := ev.kind == 27235

def timeCheck (ev : NostrEvent) (now : Int) : Bool :=
  (now - ev.created_at).natAbs ≤ 60

def urlCheck (ev : NostrEvent) (requestUrl : String) : Bool :=
  match findUrlTag ev with
  | none => false
  | some t =>
    match t[1]? with
    | none => false
    | some u =>
      normalizeUrlForComparison u ≠ "" &&
      normalizeUrlForComparison u == normalizeUrlForComparison requestUrl

def methodCheck (ev : NostrEvent) (requestMethod : String) : Bool :=
  match findMethodTag ev with
  | none => false
  | some t =>
    match t[1]? with
    | none => false
    | some m => jsToUpper m == jsToUpper requestMethod

def digestCheck (sha : List Nat → List Nat) (ev : NostrEvent) : Bool :=
  bytesToHex (sha (utf8Bytes (serializeEvent ev))) == ev.id

def sigCheck (sha : List Nat → List Nat)
    (verify : List Nat → List Nat → List Nat → Bool) (ev : NostrEvent) : Bool :=
  verify (hexToBytes ev.sig) (sha (utf8Bytes (serializeEvent ev)))
    (hexToBytes ev.pubkey)

def allowCheck (ev : NostrEvent) (env : Env) : Bool :=
  authModeOf env ≠ "whitelist" ||
  (allowedPubkeysOf env).contains (jsToLower ev.pubkey)

/-- Well-formed attribute lists: every tag is a (name, value, ...) sequence
of at least two entries, as the spec data model (ordered pairs) guarantees
for decoded claims. -/
def tagsWellFormed (ev : NostrEvent) : Prop :=
  ∀ t ∈ ev.tags, 2 ≤ t.length

instance (ev : NostrEvent) : Decidable (tagsWellFormed ev) := by
  unfold tagsWellFormed
  infer_instance

/-! ### Header decoding (lines 52–70 of `validateNip98Auth`) -/

/-- Model of `authHeader.match(/^Nostr\s+(.+)$/i)`, returning the captured
payload.  The scheme keyword is case-insensitive; `\s+` requires at least one
ECMAScript white-space character; `(.+)$` requires a nonempty remainder
without line terminators reaching the end of the string (no `m` flag, so `$`
is end-of-input only).  `\s+` is greedy but backtracks one character when the
remainder would otherwise be empty, in which case the capture is the last
white-space character (if the dot can match it). -/
def matchNostrAuth (s : String) : Option String :=
  if (s.toList.take 5).map asciiLower ≠ "nostr".toList then none
  else if ((s.toList.drop 5).takeWhile isJsWhitespace) = [] then none
  else if ((s.toList.drop 5).dropWhile isJsWhitespace) = [] then
    match ((s.toList.drop 5).takeWhile isJsWhitespace).getLast? with
    | none => none
    | some c =>
      if 2 ≤ ((s.toList.drop 5).takeWhile isJsWhitespace).length ∧
          ¬ isLineTerminator c = true then
        some (String.mk [c])
      else none
  else if ((s.toList.drop 5).dropWhile isJsWhitespace).any isLineTerminator then
    none
  else some (String.mk ((s.toList.drop 5).dropWhile isJsWhitespace))

/-- The statement-side rendering of the spec pattern `Nostr <payload>`:
a five-character case-insensitive `Nostr`, one or more white-space
characters, and a nonempty line-terminator-free payload filling the rest of
the value. -/
def NostrPatternHolds (s : String) : Prop :=
  ∃ scheme w p, s.toList = scheme ++ w ++ p ∧
    scheme.map asciiLower = "nostr".toList ∧
    w ≠ [] ∧ (∀ c ∈ w, isJsWhitespace c = true) ∧
    p ≠ [] ∧ (∀ c ∈ p, isLineTerminator c = false)

/-- Value of a standard base64 alphabet character. -/
def base64Val (c : Char) : Option Nat :=
  let n := c.toNat
  if 0x41 ≤ n && n ≤ 0x5A then some (n - 0x41)
  else if 0x61 ≤ n && n ≤ 0x7A then some (n - 0x61 + 26)
  else if 0x30 ≤ n && n ≤ 0x39 then some (n - 0x30 + 52)
  else if c = '+' then some 62
  else if c = '/' then some 63
  else none

/-- Decode a run of base64 characters (padding already stripped, length not
≡ 1 mod 4) into bytes; excess bits of a trailing 2- or 3-character group are
discarded, as forgiving-base64 specifies. -/
def base64DecodeChunks : List Char → Option (List Nat)
  | [] => some []
  | [_] => none
  | [c1, c2] =>
    match base64Val c1, base64Val c2 with
    | some v1, some v2 => some [v1 * 4 + v2 / 16]
    | _, _ => none
  | [c1, c2, c3] =>
    match base64Val c1, base64Val c2, base64Val c3 with
    | some v1, some v2, some v3 =>
      some [v1 * 4 + v2 / 16, (v2 % 16) * 16 + v3 / 4]
    | _, _, _ => none
  | c1 :: c2 :: c3 :: c4 :: rest =>
    match base64Val c1, base64Val c2, base64Val c3, base64Val c4,
      base64DecodeChunks rest with
    | some v1, some v2, some v3, some v4, some bs =>
      some ((v1 * 4 + v2 / 16) :: ((v2 % 16) * 16 + v3 / 4) ::
        ((v3 % 4) * 64 + v4) :: bs)
    | _, _, _, _, _ => none

/-- Model of `atob` (WHATWG forgiving-base64 decode): strip ASCII
white space, strip up to two trailing `=` when the length is a multiple of
four, fail on length ≡ 1 mod 4 or characters outside the alphabet, and
return the decoded bytes as a string of U+0000..U+00FF code points. -/
def atobModel (s : String) : Option String :=
  let l := s.toList.filter (fun c => ¬ isAsciiWhitespace c)
  let stripped :=
    if l.length % 4 == 0 then
      match l.reverse with
      | '=' :: '=' :: t => t.reverse
      | '=' :: t => t.reverse
      | _ => l
    else l
  if stripped.length % 4 == 1 then none
  else (base64DecodeChunks stripped).map (fun bytes => String.mk (bytes.map Char.ofNat))

/-- Decode errors of lines 52–70: each constructor corresponds to one
rejection site (`missingHeader` and `invalidFormat` are the spec taxonomy's
`MissingOrMalformedHeader`; `invalidBase64OrJson` is `MalformedCredential`). -/
inductive DecodeErr where
  | missingHeader
  | invalidFormat
  | invalidBase64OrJson
  deriving Repr, DecidableEq

/-- Lines 52–70 of `validateNip98Auth`: require the header, match the
`Nostr <base64>` pattern, then `atob` and `JSON.parse` inside one
`try`/`catch` (a failure of either yields the same rejection).  `ab` is the
`atob` implementation and `parse` abstracts `JSON.parse` (a platform
builtin; `none` models a thrown SyntaxError). -/
def decodeAuth (ab : String → Option String) (parse : String → Option JsVal)
    (authHeader : Option String) : Except DecodeErr JsVal :=
  match authHeader with
  | none => .error .missingHeader
  | some h =>
    match matchNostrAuth h with
    | none => .error .invalidFormat
    | some payload =>
      match ab payload with
      | none => .error .invalidBase64OrJson
      | some decoded =>
        match parse decoded with
        | none => .error .invalidBase64OrJson
        | some v => .ok v

/-! ### JS property access on decoded JSON values -/

/-- Result of a JS property read `v.name`. -/
inductive JsAccess where
  | thrown
  | undefinedVal
  | val (v : JsVal)
  deriving Repr

/-- Property access `v.name` for a plain data field name such as `kind`:
reading a property of `null` throws a TypeError; objects look the field up;
every other JSON value boxes to a wrapper object without such a field, so
the read yields `undefined`. -/
def jsMember (v : JsVal) (name : String) : JsAccess :=
  match v with
  | .null => .thrown
  | .obj fields =>
    match fields.find? (fun f => f.1 == name) with
    | some f => .val f.2
    | none => .undefinedVal
  | _ => .undefinedVal

/-! ### Path policy (lines 156–290) and the fetch dispatcher (lines 292–377) -/

/-- Model of `String.prototype.startsWith`. -/
def jsStartsWith (s p : String) : Bool :=
  s.toList.take p.toList.length == p.toList

/-- Lines 156–163, `requiresNip98Auth`: everything needs a claim except `/`,
`/health`, and `/static/...`. -/
def requiresNip98Auth (path : String) : Bool :=
  if path == "/" || path == "/health" || jsStartsWith path "/static/" then false
  else true

/-- Lines 186–252, `ALLOWED_ENDPOINTS`. -/
def ALLOWED_ENDPOINTS : List String :=
  ["/search", "/lookup",
   "/search/byterm", "/search/bytitle", "/search/byperson", "/search/music/byterm",
   "/podcasts/byfeedid", "/podcasts/byfeedurl", "/podcasts/byitunesid",
   "/podcasts/byguid", "/podcasts/bytag", "/podcasts/bymedium",
   "/podcasts/trending", "/podcasts/dead",
   "/episodes/byfeedid", "/episodes/byfeedurl", "/episodes/byitunesid",
   "/episodes/byguid", "/episodes/byid", "/episodes/bypodcastguid",
   "/episodes/live", "/episodes/random",
   "/recent/episodes", "/recent/feeds", "/recent/newfeeds",
   "/recent/newvaluefeeds", "/recent/data", "/recent/soundbites",
   "/value/byfeedid", "/value/byfeedurl", "/value/bypodcastguid",
   "/value/byepisodeguid",
   "/stats/current", "/categories/list", "/hub/pubnotify",
   "/static/stats/daily_counts.json", "/static/stats/hourly_counts.json",
   "/static/stats/chart-data.json", "/static/stats/v4vmusic.json",
   "/static/stats/v4vmusic.opml", "/static/stats/v4vmusic.rss",
   "/static/tracking/current", "/static/tracking/feedValueBlocks",
   "/static/tracking/episodeValueBlocks",
   "/static/public/podcastindex_dead_feeds.csv",
   "/static/public/podcastindex_feeds.db.tgz"]

/-- Lines 255–261, `NO_AUTH_PREFIXES`. -/
def NO_AUTH_PREFIXES : List String :=
  ["/search", "/lookup", "/value/", "/hub/", "/static/"]

/-- Lines 264–269, `AUTH_REQUIRED_SEARCH`. -/
def AUTH_REQUIRED_SEARCH : List String :=
  ["/search/byterm", "/search/bytitle", "/search/byperson", "/search/music/byterm"]

/-- Lines 271–282, `requiresAuth`: the search override first, then the
no-auth prefixes, default `true`. -/
def requiresAuth (path : String) : Bool :=
  if AUTH_REQUIRED_SEARCH.any (fun endpoint => jsStartsWith path endpoint) then true
  else if NO_AUTH_PREFIXES.any (fun p => jsStartsWith path p) then false
  else true

/-- Lines 284–286, `isStaticEndpoint`. -/
def isStaticEndpoint (path : String) : Bool := jsStartsWith path "/static/"

/-- Lines 288–290, `isAllowedEndpoint`. -/
def isAllowedEndpoint (path : String) : Bool :=
  ALLOWED_ENDPOINTS.any (fun endpoint => jsStartsWith path endpoint)

/-- Dispatch outcomes of the `fetch` handler, one per response site before
the outbound request (`proxied` records whether upstream credentials are
attached). -/
inductive HandlerOutcome where
  | corsOk
  | methodNotAllowed
  | health
  | unauthorized
  | endpointNotAllowed
  | credsNotConfigured
  | proxied (withUpstreamCreds : Bool)
  deriving Repr, DecidableEq

/-- Lines 292–377 of the `fetch` handler, up to the outbound request:
CORS preflight, GET-only, the `/`–`/health` short circuit, the NIP-98 gate
(`authValid` abstracts `await validateNip98Auth(...)`, consulted only when
`requiresNip98Auth(path)`), the endpoint allowlist, the credential
configuration check (JS `!s` is true for the empty string), then proxying. -/
def handleRequest (method path : String) (authValid : Bool) (env : Env) :
    HandlerOutcome :=
  if method == "OPTIONS" then .corsOk
  else if method ≠ "GET" then .methodNotAllowed
  else if path == "/" || path == "/health" then .health
  else if requiresNip98Auth path && !authValid then .unauthorized
  else if !isAllowedEndpoint path then .endpointNotAllowed
  else if requiresAuth path &&
      (env.PODCAST_INDEX_KEY == "" || env.PODCAST_INDEX_SECRET == "") then
    .credsNotConfigured
  else .proxied (requiresAuth path)

/-! ### Concrete fixtures used by witnesses and counterexamples -/

/-- A `sha256` oracle returning the empty digest (hex `""`). -/
def shaNull : List Nat → List Nat := fun _ => []

/-- A schnorr oracle accepting everything. -/
def verifyTrue : List Nat → List Nat → List Nat → Bool := fun _ _ _ => true

/-- An environment in the default open mode with credentials configured. -/
def openEnv : Env :=
  { PODCAST_INDEX_KEY := "key", PODCAST_INDEX_SECRET := "secret",
    NOSTR_AUTH_MODE := none, NOSTR_ALLOWED_PUBKEYS := none }

/-- A well-formed event whose digest matches under `shaNull` and whose tags
bind `https://e.com/` and `GET`. -/
def goodEv : NostrEvent :=
  { id := "", pubkey := "ab", created_at := 100, kind := 27235,
    tags := [["u", "https://e.com/"], ["method", "GET"]],
    content := "", sig := "cafe" }

/-- An event differing from `goodEv` only in its (wrong) kind. -/
def badKindEv : NostrEvent := { goodEv with kind := 1 }

/-- An event differing from `goodEv` only in an id that does not match the
`shaNull` digest. -/
def badIdEv : NostrEvent := { goodEv with id := "deadbeef" }

/-- An event with two `u` pairs (the first one correct) and one `method`
pair. -/
def dupUrlEv : NostrEvent :=
  { goodEv with tags := [["u", "https://e.com/"], ["u", "x"], ["method", "GET"]] }

/-- A whitelist-mode environment whose configured entry trims and lowers to
`"ab"`. -/
def wlEnv : Env :=
  { openEnv with
    NOSTR_AUTH_MODE := some "whitelist"
    NOSTR_ALLOWED_PUBKEYS := some " AB " }

/-- A whitelist-mode environment whose configured entries are all blank
after trimming. -/
def wlEmptyEnv : Env :=
  { openEnv with
    NOSTR_AUTH_MODE := some "whitelist"
    NOSTR_ALLOWED_PUBKEYS := some "  , ,, " }


/-- The comparator relation on entries used by the model sort. -/
def entryLe (a b : List Char × List Char) : Prop :=
  lexLe (entryKey a) (entryKey b) = true

instance (a b : List Char × List Char) : Decidable (entryLe a b) := by
  unfold entryLe
  infer_instance


/-! ### Stage characterizations of the validator -/

/-- Characterization of the digest/signature/whitelist tail of the pipeline
(lines 103–144): each outcome happens exactly when the checks before it pass
and it fails, mirroring the source's early returns. -/
theorem validateFromDigest_cases (sha : List Nat → List Nat)
    (verify : List Nat → List Nat → List Nat → Bool) (ev : NostrEvent)
    (env : Env) :
    (validateFromDigest sha verify ev env = .rejected .digestMismatch ↔
      digestCheck sha ev = false) ∧
    (validateFromDigest sha verify ev env = .rejected .sigInvalid ↔
      digestCheck sha ev = true ∧ sigCheck sha verify ev = false) ∧
    (validateFromDigest sha verify ev env = .rejected .notWhitelisted ↔
      digestCheck sha ev = true ∧ sigCheck sha verify ev = true ∧
      allowCheck ev env = false) ∧
    (∀ p, validateFromDigest sha verify ev env = .ok p ↔
      p = ev.pubkey ∧ digestCheck sha ev = true ∧ sigCheck sha verify ev = true ∧
      allowCheck ev env = true) ∧
    validateFromDigest sha verify ev env ≠ .thrown ∧
    validateFromDigest sha verify ev env ≠ .rejected .wrongKind ∧
    validateFromDigest sha verify ev env ≠ .rejected .expired ∧
    validateFromDigest sha verify ev env ≠ .rejected .urlMismatch ∧
    validateFromDigest sha verify ev env ≠ .rejected .methodMismatch := by
  unfold validateFromDigest digestCheck sigCheck allowCheck
  by_cases hd : bytesToHex (sha (utf8Bytes (serializeEvent ev))) = ev.id
  · by_cases hs : verify (hexToBytes ev.sig) (sha (utf8Bytes (serializeEvent ev)))
        (hexToBytes ev.pubkey) = true
    · by_cases hm : authModeOf env = "whitelist"
      · by_cases ha : (allowedPubkeysOf env).contains (jsToLower ev.pubkey) = true
        · have ha' : jsToLower ev.pubkey ∈ allowedPubkeysOf env := by
            simpa [List.elem_iff] using ha
          simp [hd, hs, hm, ha, ha', eq_comm]
        · have ha' : jsToLower ev.pubkey ∉ allowedPubkeysOf env := by
            simpa [List.elem_iff] using ha
          simp [hd, hs, hm, ha, ha']
      · simp [hd, hs, hm, eq_comm]
    · simp [hd, hs]
  · simp [hd]

/-- Characterization of the URL/method binding stage (lines 83–101), given
that the first `u` tag and the first `method` tag (when present) carry a
value: `UrlMismatch` exactly when the URL binding check fails, then
`MethodMismatch`, then the digest stage. -/
theorem validateFromUrl_cases (sha : List Nat → List Nat)
    (verify : List Nat → List Nat → List Nat → Bool) (ev : NostrEvent)
    (requestUrl requestMethod : String) (env : Env)
    (hwu : ∀ t, findUrlTag ev = some t → t[1]?.isSome)
    (hwm : ∀ t, findMethodTag ev = some t → t[1]?.isSome) :
    (validateFromUrl sha verify ev requestUrl requestMethod env =
        .rejected .urlMismatch ↔ urlCheck ev requestUrl = false) ∧
    (validateFromUrl sha verify ev requestUrl requestMethod env =
        .rejected .methodMismatch ↔
      urlCheck ev requestUrl = true ∧ methodCheck ev requestMethod = false) ∧
    (urlCheck ev requestUrl = true → methodCheck ev requestMethod = true →
      validateFromUrl sha verify ev requestUrl requestMethod env =
        validateFromDigest sha verify ev env) ∧
    validateFromUrl sha verify ev requestUrl requestMethod env ≠
      .rejected .wrongKind ∧
    validateFromUrl sha verify ev requestUrl requestMethod env ≠
      .rejected .expired ∧
    validateFromUrl sha verify ev requestUrl requestMethod env ≠ .thrown := by
  cases hu : findUrlTag ev with
  | none => simp [validateFromUrl, urlCheck, hu]
  | some t =>
    obtain ⟨u, hget⟩ := Option.isSome_iff_exists.mp (hwu t hu)
    by_cases hne : normalizeUrlForComparison u = "" ∨
        normalizeUrlForComparison u ≠ normalizeUrlForComparison requestUrl
    · have hcheck : urlCheck ev requestUrl = false := by
        simp only [urlCheck, hu, hget]
        rcases hne with h | h
        · simp [h]
        · simp [h]
      simp [validateFromUrl, hu, hget, hne, hcheck]
    · have hcheck : urlCheck ev requestUrl = true := by
        push_neg at hne
        have h1 : normalizeUrlForComparison requestUrl ≠ "" := by
          rw [← hne.2]; exact hne.1
        simp [urlCheck, hu, hget, hne.1, hne.2, h1]
      cases hm : findMethodTag ev with
      | none => simp [validateFromUrl, hu, hget, hne, hm, hcheck, methodCheck]
      | some mt =>
        obtain ⟨mv, hmget⟩ := Option.isSome_iff_exists.mp (hwm mt hm)
        by_cases hmm : jsToUpper mv = jsToUpper requestMethod
        · have hmc : methodCheck ev requestMethod = true := by
            simp [methodCheck, hm, hmget, hmm]
          have htail := validateFromDigest_cases sha verify ev env
          have hval : validateFromUrl sha verify ev requestUrl requestMethod env =
              validateFromDigest sha verify ev env := by
            simp [validateFromUrl, hu, hget, hne, hm, hmget, hmm]
          refine ⟨?_, ?_, fun _ _ => hval, ?_, ?_, ?_⟩
          · rw [hval, hcheck]
            simp [htail.2.2.2.2.2.2.2.1]
          · rw [hval, hmc]
            simp [htail.2.2.2.2.2.2.2.2]
          · rw [hval]; exact htail.2.2.2.2.2.1
          · rw [hval]; exact htail.2.2.2.2.2.2.1
          · rw [hval]; exact htail.2.2.2.2.1
        · have hmc : methodCheck ev requestMethod = false := by
            simp [methodCheck, hm, hmget, hmm]
          simp [validateFromUrl, hu, hget, hne, hm, hmget, hmm, hcheck, hmc]

/-- Well-formed tags give the first `u` tag a value slot. -/
theorem urlTag_isSome_of_wellFormed (ev : NostrEvent) (hwf : tagsWellFormed ev) :
    ∀ t, findUrlTag ev = some t → t[1]?.isSome := by
  intro t ht
  have hmem : t ∈ ev.tags := List.mem_of_find?_eq_some ht
  have hlen := hwf t hmem
  rw [Option.isSome_iff_ne_none]
  simp only [ne_eq, List.getElem?_eq_none_iff]
  omega

/-- Well-formed tags give the first `method` tag a value slot. -/
theorem methodTag_isSome_of_wellFormed (ev : NostrEvent) (hwf : tagsWellFormed ev) :
    ∀ t, findMethodTag ev = some t → t[1]?.isSome := by
  intro t ht
  have hmem : t ∈ ev.tags := List.mem_of_find?_eq_some ht
  have hlen := hwf t hmem
  rw [Option.isSome_iff_ne_none]
  simp only [ne_eq, List.getElem?_eq_none_iff]
  omega

/-- Full characterization of `validate`'s rejections: each rejection appears
exactly when all earlier checks pass and that check fails, and success
returns the pubkey.  Shared workhorse behind the claim theorems. -/
theorem validate_cases (sha : List Nat → List Nat)
    (verify : List Nat → List Nat → List Nat → Bool) (ev : NostrEvent)
    (requestUrl requestMethod : String) (now : Int) (env : Env)
    (hwf : tagsWellFormed ev) :
    (validate sha verify ev requestUrl requestMethod now env =
        .rejected .wrongKind ↔ kindCheck ev = false) ∧
    (validate sha verify ev requestUrl requestMethod now env =
        .rejected .expired ↔ kindCheck ev = true ∧ timeCheck ev now = false) ∧
    (validate sha verify ev requestUrl requestMethod now env =
        .rejected .urlMismatch ↔
      kindCheck ev = true ∧ timeCheck ev now = true ∧
      urlCheck ev requestUrl = false) ∧
    (validate sha verify ev requestUrl requestMethod now env =
        .rejected .methodMismatch ↔
      kindCheck ev = true ∧ timeCheck ev now = true ∧
      urlCheck ev requestUrl = true ∧ methodCheck ev requestMethod = false) ∧
    (validate sha verify ev requestUrl requestMethod now env =
        .rejected .digestMismatch ↔
      kindCheck ev = true ∧ timeCheck ev now = true ∧
      urlCheck ev requestUrl = true ∧ methodCheck ev requestMethod = true ∧
      digestCheck sha ev = false) ∧
    (validate sha verify ev requestUrl requestMethod now env =
        .rejected .sigInvalid ↔
      kindCheck ev = true ∧ timeCheck ev now = true ∧
      urlCheck ev requestUrl = true ∧ methodCheck ev requestMethod = true ∧
      digestCheck sha ev = true ∧ sigCheck sha verify ev = false) ∧
    (validate sha verify ev requestUrl requestMethod now env =
        .rejected .notWhitelisted ↔
      kindCheck ev = true ∧ timeCheck ev now = true ∧
      urlCheck ev requestUrl = true ∧ methodCheck ev requestMethod = true ∧
      digestCheck sha ev = true ∧ sigCheck sha verify ev = true ∧
      allowCheck ev env = false) ∧
    (∀ p, validate sha verify ev requestUrl requestMethod now env = .ok p ↔
      p = ev.pubkey ∧ kindCheck ev = true ∧ timeCheck ev now = true ∧
      urlCheck ev requestUrl = true ∧ methodCheck ev requestMethod = true ∧
      digestCheck sha ev = true ∧ sigCheck sha verify ev = true ∧
      allowCheck ev env = true) := by
  have hwu := urlTag_isSome_of_wellFormed ev hwf
  have hwm := methodTag_isSome_of_wellFormed ev hwf
  have hurl := validateFromUrl_cases sha verify ev requestUrl requestMethod env
    hwu hwm
  by_cases hk : ev.kind = 27235
  · have hkc : kindCheck ev = true := by simp [kindCheck, hk]
    by_cases ht : (now - ev.created_at).natAbs ≤ 60
    · have htc : timeCheck ev now = true := by simp [timeCheck, ht]
      have hv : validate sha verify ev requestUrl requestMethod now env =
          validateFromUrl sha verify ev requestUrl requestMethod env := by
        simp [validate, hk, Nat.not_lt.mpr ht]
      rw [hv]
      by_cases hcu : urlCheck ev requestUrl = true
      · by_cases hcm : methodCheck ev requestMethod = true
        · have hval2 : validateFromUrl sha verify ev requestUrl requestMethod env =
              validateFromDigest sha verify ev env := hurl.2.2.1 hcu hcm
          have htail := validateFromDigest_cases sha verify ev env
          rw [hval2]
          refine ⟨?_, ?_, ?_, ?_, ?_, ?_, ?_, ?_⟩
          · simp [htail.2.2.2.2.2.1, hkc]
          · simp [htail.2.2.2.2.2.2.1, hkc, htc]
          · simp [htail.2.2.2.2.2.2.2.1, hkc, htc, hcu]
          · simp [htail.2.2.2.2.2.2.2.2, hkc, htc, hcu, hcm]
          · simp [htail.1, hkc, htc, hcu, hcm]
          · simp [htail.2.1, hkc, htc, hcu, hcm]
          · simp [htail.2.2.1, hkc, htc, hcu, hcm]
          · intro p
            simp [htail.2.2.2.1 p, hkc, htc, hcu, hcm]
        · have hvm : validateFromUrl sha verify ev requestUrl requestMethod env =
              .rejected .methodMismatch :=
            hurl.2.1.mpr ⟨hcu, by simpa using hcm⟩
          rw [hvm]
          simp [hkc, htc, hcu, hcm]
      · have hvu : validateFromUrl sha verify ev requestUrl requestMethod env =
            .rejected .urlMismatch :=
          hurl.1.mpr (by simpa using hcu)
        rw [hvu]
        simp [hkc, htc, hcu]
    · have htc : timeCheck ev now = false := by simp [timeCheck, ht]
      have hv : validate sha verify ev requestUrl requestMethod now env =
          .rejected .expired := by
        simp [validate, hk, Nat.lt_of_not_le ht]
      rw [hv]
      simp [hkc, htc]
  · have hkc : kindCheck ev = false := by simp [kindCheck, hk]
    have hv : validate sha verify ev requestUrl requestMethod now env =
        .rejected .wrongKind := by
      simp [validate, hk]
    rw [hv]
    simp [hkc]

/-- C1: For every decoded claim, request URL, request method, time, and
allowlist configuration, `validate` performs its checks in the fixed order
kind (`wrongKind`), timestamp window (`expired`), URL binding
(`urlMismatch`), method binding (`methodMismatch`), digest recomputation
(`digestMismatch`), signature verification (`sigInvalid`), allowlist
membership (`notWhitelisted`); each rejection is returned exactly when all
earlier checks pass and that check fails (so the first failing check decides
the result, without the later checks being consulted), and on full success
the result is `ok` with the claim's pubkey identity. -/
theorem validate_check_order (sha : List Nat → List Nat)
    (verify : List Nat → List Nat → List Nat → Bool) (ev : NostrEvent)
    (requestUrl requestMethod : String) (now : Int) (env : Env)
    (hwf : tagsWellFormed ev) :
    (validate sha verify ev requestUrl requestMethod now env =
        .rejected .wrongKind ↔ kindCheck ev = false) ∧
    (validate sha verify ev requestUrl requestMethod now env =
        .rejected .expired ↔ kindCheck ev = true ∧ timeCheck ev now = false) ∧
    (validate sha verify ev requestUrl requestMethod now env =
        .rejected .urlMismatch ↔
      kindCheck ev = true ∧ timeCheck ev now = true ∧
      urlCheck ev requestUrl = false) ∧
    (validate sha verify ev requestUrl requestMethod now env =
        .rejected .methodMismatch ↔
      kindCheck ev = true ∧ timeCheck ev now = true ∧
      urlCheck ev requestUrl = true ∧ methodCheck ev requestMethod = false) ∧
    (validate sha verify ev requestUrl requestMethod now env =
        .rejected .digestMismatch ↔
      kindCheck ev = true ∧ timeCheck ev now = true ∧
      urlCheck ev requestUrl = true ∧ methodCheck ev requestMethod = true ∧
      digestCheck sha ev = false) ∧
    (validate sha verify ev requestUrl requestMethod now env =
        .rejected .sigInvalid ↔
      kindCheck ev = true ∧ timeCheck ev now = true ∧
      urlCheck ev requestUrl = true ∧ methodCheck ev requestMethod = true ∧
      digestCheck sha ev = true ∧ sigCheck sha verify ev = false) ∧
    (validate sha verify ev requestUrl requestMethod now env =
        .rejected .notWhitelisted ↔
      kindCheck ev = true ∧ timeCheck ev now = true ∧
      urlCheck ev requestUrl = true ∧ methodCheck ev requestMethod = true ∧
      digestCheck sha ev = true ∧ sigCheck sha verify ev = true ∧
      allowCheck ev env = false) ∧
    (∀ p, validate sha verify ev requestUrl requestMethod now env = .ok p ↔
      p = ev.pubkey ∧ kindCheck ev = true ∧ timeCheck ev now = true ∧
      urlCheck ev requestUrl = true ∧ methodCheck ev requestMethod = true ∧
      digestCheck sha ev = true ∧ sigCheck sha verify ev = true ∧
      allowCheck ev env = true) :=
  validate_cases sha verify ev requestUrl requestMethod now env hwf

/-- Witness for the check-order characterization: a fully passing claim at a
concrete input is accepted with its pubkey. -/
theorem validate_check_order_witness :
    validate shaNull verifyTrue goodEv "https://e.com/" "get" 100 openEnv =
      .ok "ab" :=
  ((validate_check_order shaNull verifyTrue goodEv "https://e.com/" "get" 100
      openEnv (by decide)).2.2.2.2.2.2.2 "ab").mpr (by decide)

/-! ### Path prefix reasoning -/

/-- The `startsWith` model agrees with list-prefix. -/
theorem jsStartsWith_iff (s p : String) :
    jsStartsWith s p = true ↔ p.toList <+: s.toList := by
  unfold jsStartsWith
  rw [beq_iff_eq]
  constructor
  · intro h
    rw [← h]
    exact List.take_prefix _ _
  · intro h
    exact (List.prefix_iff_eq_take.mp h).symm

/-- C7: upstream-credential need per path: the four search-like overrides
(prefix match) force `true` and are tested first; otherwise any
`NO_AUTH_PREFIXES` prefix match gives `false` (in particular the exact path
`/search`); every other path needs upstream credentials. -/
theorem requiresAuth_policy (path : String) :
    (requiresAuth path = true ↔
      (∃ e ∈ AUTH_REQUIRED_SEARCH, e.toList <+: path.toList) ∨
      (∀ q ∈ NO_AUTH_PREFIXES, ¬ q.toList <+: path.toList)) ∧
    requiresAuth "/search" = false ∧
    requiresAuth "/search/byterm" = true ∧
    requiresAuth "/search/bytitle" = true ∧
    requiresAuth "/search/byperson" = true ∧
    requiresAuth "/search/music/byterm" = true ∧
    requiresAuth "/lookup" = false ∧
    requiresAuth "/value/byfeedid" = false ∧
    requiresAuth "/hub/pubnotify" = false ∧
    requiresAuth "/static/tracking/current" = false ∧
    requiresAuth "/podcasts/trending" = true := by
  refine ⟨?_, by decide, by decide, by decide, by decide, by decide, by decide,
    by decide, by decide, by decide, by decide⟩
  have ha : AUTH_REQUIRED_SEARCH.any (fun e => jsStartsWith path e) = true ↔
      ∃ e ∈ AUTH_REQUIRED_SEARCH, e.toList <+: path.toList := by
    simp [List.any_eq_true, jsStartsWith_iff]
  have hn : NO_AUTH_PREFIXES.any (fun q => jsStartsWith path q) = true ↔
      ∃ q ∈ NO_AUTH_PREFIXES, q.toList <+: path.toList := by
    simp [List.any_eq_true, jsStartsWith_iff]
  by_cases h1 : AUTH_REQUIRED_SEARCH.any (fun e => jsStartsWith path e) = true
  · have hval : requiresAuth path = true := by simp [requiresAuth, h1]
    rw [hval]
    simp only [true_iff]
    exact Or.inl (ha.mp h1)
  · by_cases h2 : NO_AUTH_PREFIXES.any (fun q => jsStartsWith path q) = true
    · have hval : requiresAuth path = false := by simp [requiresAuth, h1, h2]
      rw [hval]
      obtain ⟨q, hq, hpq⟩ := hn.mp h2
      simp only [Bool.false_eq_true, false_iff]
      rintro (hleft | hforall)
      · exact h1 (ha.mpr hleft)
      · exact (hforall q hq) hpq
    · have hval : requiresAuth path = true := by simp [requiresAuth, h1, h2]
      rw [hval]
      simp only [true_iff]
      right
      intro q hq hpq
      exact h2 (hn.mpr ⟨q, hq, hpq⟩)

/-- Exemption characterization of `requiresNip98Auth`: it returns `false`
exactly on `/`, `/health`, and `/static/...`. -/
theorem requiresNip98Auth_false_iff (path : String) :
    requiresNip98Auth path = false ↔
      (path = "/" ∨ path = "/health" ∨ "/static/".toList <+: path.toList) := by
  have hs := jsStartsWith_iff path "/static/"
  unfold requiresNip98Auth
  by_cases h3 : jsStartsWith path "/static/" = true
  · have hcond : (path == "/" || path == "/health" ||
        jsStartsWith path "/static/") = true := by simp [h3]
    rw [if_pos hcond]
    exact iff_of_true rfl (Or.inr (Or.inr (hs.mp h3)))
  · by_cases h1 : path = "/"
    · have hcond : (path == "/" || path == "/health" ||
          jsStartsWith path "/static/") = true := by simp [h1]
      rw [if_pos hcond]
      exact iff_of_true rfl (Or.inl h1)
    · by_cases h2 : path = "/health"
      · have hcond : (path == "/" || path == "/health" ||
            jsStartsWith path "/static/") = true := by simp [h2]
        rw [if_pos hcond]
        exact iff_of_true rfl (Or.inr (Or.inl h2))
      · have hcond : ¬ (path == "/" || path == "/health" ||
            jsStartsWith path "/static/") = true := by simp [h1, h2, h3]
        rw [if_neg hcond]
        refine iff_of_false (by simp) ?_
        rintro (h | h | h)
        · exact h1 h
        · exact h2 h
        · exact h3 (hs.mpr h)

/-- On a GET request the dispatcher answers `unauthorized` exactly when the
path is off the health short-circuit, the NIP-98 gate applies, and the
credential is invalid or absent. -/
theorem handleRequest_unauthorized_iff (path : String) (authValid : Bool)
    (env : Env) :
    handleRequest "GET" path authValid env = .unauthorized ↔
      (¬ (path = "/" ∨ path = "/health") ∧ requiresNip98Auth path = true ∧
        authValid = false) := by
  unfold handleRequest
  rw [if_neg (by decide : ¬ (("GET" : String) == "OPTIONS") = true)]
  rw [if_neg (by simp : ¬ ("GET" : String) ≠ "GET")]
  by_cases hh : (path == "/" || path == "/health") = true
  · rw [if_pos hh]
    refine iff_of_false (by simp) ?_
    rintro ⟨hno, _, _⟩
    simp only [Bool.or_eq_true, beq_iff_eq] at hh
    exact hno hh
  · rw [if_neg hh]
    simp only [Bool.or_eq_true, beq_iff_eq, not_or] at hh
    by_cases hg : (requiresNip98Auth path && !authValid) = true
    · rw [if_pos hg]
      simp only [Bool.and_eq_true, Bool.not_eq_true'] at hg
      exact iff_of_true rfl ⟨by tauto, hg.1, hg.2⟩
    · rw [if_neg hg]
      simp only [Bool.and_eq_true, Bool.not_eq_true'] at hg
      refine iff_of_false ?_ (by tauto)
      split
      · simp
      · split <;> simp

/-- C9: a NIP-98 claim is demanded exactly off the exempt set: with an
invalid (or absent) credential, a GET request is answered `unauthorized`
precisely when the path is not `/`, not `/health`, and not under `/static/`;
that includes `/search`, `/lookup`, `/value/...` and `/hub/...` even though
those skip upstream credential injection. -/
theorem nip98_gate (path : String) (env : Env) :
    (handleRequest "GET" path false env = .unauthorized ↔
      ¬ (path = "/" ∨ path = "/health" ∨ "/static/".toList <+: path.toList)) ∧
    (requiresNip98Auth path = false ↔
      (path = "/" ∨ path = "/health" ∨ "/static/".toList <+: path.toList)) ∧
    handleRequest "GET" "/search" false env = .unauthorized ∧
    handleRequest "GET" "/lookup" false env = .unauthorized ∧
    handleRequest "GET" "/value/byfeedid" false env = .unauthorized ∧
    handleRequest "GET" "/hub/pubnotify" false env = .unauthorized ∧
    requiresAuth "/search" = false ∧
    requiresAuth "/lookup" = false ∧
    requiresAuth "/value/byfeedid" = false ∧
    requiresAuth "/hub/pubnotify" = false := by
  refine ⟨?_, requiresNip98Auth_false_iff path, rfl, rfl, rfl, rfl,
    by decide, by decide, by decide, by decide⟩
  rw [handleRequest_unauthorized_iff]
  constructor
  · rintro ⟨hno, hreq, -⟩
    rintro (h | h | h)
    · exact hno (Or.inl h)
    · exact hno (Or.inr h)
    · rw [(requiresNip98Auth_false_iff path).mpr (Or.inr (Or.inr h))] at hreq
      exact Bool.false_ne_true hreq
  · intro hnot
    refine ⟨fun hor => hnot ?_, ?_, rfl⟩
    · rcases hor with h | h
      · exact Or.inl h
      · exact Or.inr (Or.inl h)
    · cases hb : requiresNip98Auth path
      · exact absurd ((requiresNip98Auth_false_iff path).mp hb) hnot
      · rfl

/-! ### Claims about the individual checks -/

/-- A passing URL check guarantees the first `u` tag carries a value. -/
theorem urlTag_isSome_of_urlCheck (ev : NostrEvent) (requestUrl : String)
    (h : urlCheck ev requestUrl = true) :
    ∀ t, findUrlTag ev = some t → t[1]?.isSome := by
  intro t ht
  cases hg : t[1]? with
  | none => simp [urlCheck, ht, hg] at h
  | some u => simp

/-- A passing method check guarantees the first `method` tag carries a
value. -/
theorem methodTag_isSome_of_methodCheck (ev : NostrEvent)
    (requestMethod : String) (h : methodCheck ev requestMethod = true) :
    ∀ t, findMethodTag ev = some t → t[1]?.isSome := by
  intro t ht
  cases hg : t[1]? with
  | none => simp [methodCheck, ht, hg] at h
  | some m => simp

/-- When the four binding checks pass, `validate` continues into the digest
stage. -/
theorem validate_reaches_digest (sha : List Nat → List Nat)
    (verify : List Nat → List Nat → List Nat → Bool) (ev : NostrEvent)
    (requestUrl requestMethod : String) (now : Int) (env : Env)
    (hkc : kindCheck ev = true) (htc : timeCheck ev now = true)
    (hcu : urlCheck ev requestUrl = true)
    (hcm : methodCheck ev requestMethod = true) :
    validate sha verify ev requestUrl requestMethod now env =
      validateFromDigest sha verify ev env := by
  have hk : ev.kind = 27235 := by simpa [kindCheck] using hkc
  have ht : (now - ev.created_at).natAbs ≤ 60 := by simpa [timeCheck] using htc
  have hv : validate sha verify ev requestUrl requestMethod now env =
      validateFromUrl sha verify ev requestUrl requestMethod env := by
    simp [validate, hk, Nat.not_lt.mpr ht]
  rw [hv]
  exact (validateFromUrl_cases sha verify ev requestUrl requestMethod env
    (urlTag_isSome_of_urlCheck ev requestUrl hcu)
    (methodTag_isSome_of_methodCheck ev requestMethod hcm)).2.2.1 hcu hcm

/-- C2 (amended): whenever the kind, timestamp, URL, and method checks pass,
the validator recomputes the digest as the `sha256` hex of the compact JSON
array serialization of `(0, pubkey, created_at, kind, tags, content)` in
exactly that field order and rejects with `digestMismatch` precisely when
that hex string differs from the claim's `id` (exact string comparison). -/
theorem validate_digest_comparison (sha : List Nat → List Nat)
    (verify : List Nat → List Nat → List Nat → Bool) (ev : NostrEvent)
    (requestUrl requestMethod : String) (now : Int) (env : Env)
    (h : kindCheck ev = true ∧ timeCheck ev now = true ∧
      urlCheck ev requestUrl = true ∧ methodCheck ev requestMethod = true) :
    validate sha verify ev requestUrl requestMethod now env =
        .rejected .digestMismatch ↔
      bytesToHex (sha (utf8Bytes (String.mk (jsonStringify (JsVal.arr
        [JsVal.num 0, JsVal.str ev.pubkey, JsVal.num ev.created_at,
         JsVal.num ev.kind,
         JsVal.arr (ev.tags.map (fun t => JsVal.arr (t.map JsVal.str))),
         JsVal.str ev.content]))))) ≠ ev.id := by
  obtain ⟨hkc, htc, hcu, hcm⟩ := h
  rw [validate_reaches_digest sha verify ev requestUrl requestMethod now env
    hkc htc hcu hcm]
  rw [(validateFromDigest_cases sha verify ev env).1]
  simp [digestCheck, serializeEvent]

/-- C3 (amended): for a claim of the correct kind 27235, any supplied time
farther than 60 seconds from `created_at` is rejected `expired` regardless
of all other fields and oracles, while at exactly 60 seconds the timestamp
check passes and validation proceeds to the URL binding stage. -/
theorem validate_expired_window (sha : List Nat → List Nat)
    (verify : List Nat → List Nat → List Nat → Bool) (ev : NostrEvent)
    (requestUrl requestMethod : String) (now : Int) (env : Env)
    (hk : ev.kind = 27235) :
    (60 < (now - ev.created_at).natAbs →
      validate sha verify ev requestUrl requestMethod now env =
        .rejected .expired) ∧
    ((now - ev.created_at).natAbs = 60 →
      validate sha verify ev requestUrl requestMethod now env =
        validateFromUrl sha verify ev requestUrl requestMethod env) := by
  constructor
  · intro hfar
    simp [validate, hk, hfar]
  · intro hexact
    simp [validate, hk, hexact]

/-- C4 (amended): past the kind and timestamp checks, validation proceeds
beyond the URL and method binding checks exactly when the first
attribute pair named `u` and the first pair named `method` exist and match
the request; at least one pair of each name is therefore required, the first
one of each name is the one used, and all other pairs are ignored by these
checks. -/
theorem validate_binding_first_pairs (sha : List Nat → List Nat)
    (verify : List Nat → List Nat → List Nat → Bool) (ev : NostrEvent)
    (requestUrl requestMethod : String) (now : Int) (env : Env)
    (hwf : tagsWellFormed ev) (hkc : kindCheck ev = true)
    (htc : timeCheck ev now = true) :
    ((validate sha verify ev requestUrl requestMethod now env ≠
        .rejected .urlMismatch ∧
      validate sha verify ev requestUrl requestMethod now env ≠
        .rejected .methodMismatch) ↔
      (urlCheck ev requestUrl = true ∧ methodCheck ev requestMethod = true)) ∧
    (urlCheck ev requestUrl = true → (findUrlTag ev).isSome) ∧
    (methodCheck ev requestMethod = true → (findMethodTag ev).isSome) := by
  have hcases := validate_cases sha verify ev requestUrl requestMethod now env hwf
  refine ⟨⟨?_, ?_⟩, ?_, ?_⟩
  · rintro ⟨hnu, hnm⟩
    cases hcu : urlCheck ev requestUrl with
    | false => exact absurd (hcases.2.2.1.mpr ⟨hkc, htc, hcu⟩) hnu
    | true =>
      cases hcm : methodCheck ev requestMethod with
      | false => exact absurd (hcases.2.2.2.1.mpr ⟨hkc, htc, hcu, hcm⟩) hnm
      | true => exact ⟨rfl, rfl⟩
  · rintro ⟨hcu, hcm⟩
    constructor
    · intro hbad
      have := hcases.2.2.1.mp hbad
      rw [hcu] at this
      simp at this
    · intro hbad
      have := hcases.2.2.2.1.mp hbad
      rw [hcm] at this
      simp at this
  · intro hcu
    unfold urlCheck at hcu
    cases hu : findUrlTag ev with
    | none => rw [hu] at hcu; simp at hcu
    | some t => simp
  · intro hcm
    unfold methodCheck at hcm
    cases hm : findMethodTag ev with
    | none => rw [hm] at hcm; simp at hcm
    | some t => simp

/-- If `validate` accepts, the allowlist check passed and the result carries
the event's pubkey (provable without any well-formedness assumption: every
successful run went through the whitelist branch). -/
theorem validate_ok_implies_allow (sha : List Nat → List Nat)
    (verify : List Nat → List Nat → List Nat → Bool) (ev : NostrEvent)
    (requestUrl requestMethod : String) (now : Int) (env : Env) (p : String)
    (h : validate sha verify ev requestUrl requestMethod now env = .ok p) :
    allowCheck ev env = true ∧ p = ev.pubkey := by
  unfold validate at h
  by_cases hk : ev.kind ≠ 27235
  · simp [hk] at h
  · rw [if_neg hk] at h
    by_cases ht : 60 < (now - ev.created_at).natAbs
    · simp [ht] at h
    · rw [if_neg ht] at h
      unfold validateFromUrl at h
      cases hu : findUrlTag ev with
      | none => simp [hu] at h
      | some t =>
        simp only [hu] at h
        cases hg : t[1]? with
        | none => simp [hg] at h
        | some u =>
          simp only [hg] at h
          by_cases hne : normalizeUrlForComparison u = "" ∨
              normalizeUrlForComparison u ≠ normalizeUrlForComparison requestUrl
          · simp only [if_pos hne] at h; simp at h
          · rw [if_neg hne] at h
            cases hm : findMethodTag ev with
            | none => simp [hm] at h
            | some mt =>
              simp only [hm] at h
              cases hmg : mt[1]? with
              | none => simp [hmg] at h
              | some mv =>
                simp only [hmg] at h
                by_cases hmm : jsToUpper mv ≠ jsToUpper requestMethod
                · simp [hmm] at h
                · rw [if_neg hmm] at h
                  unfold validateFromDigest at h
                  by_cases hd : bytesToHex (sha (utf8Bytes (serializeEvent ev)))
                      ≠ ev.id
                  · simp [hd] at h
                  · rw [if_neg hd] at h
                    by_cases hsg : ¬ verify (hexToBytes ev.sig)
                        (sha (utf8Bytes (serializeEvent ev)))
                        (hexToBytes ev.pubkey)
                    · simp [hsg] at h
                    · rw [if_neg hsg] at h
                      simp only [Bool.not_eq_true, Bool.not_eq_false] at hsg
                      by_cases hwl : authModeOf env = "whitelist"
                      · rw [if_pos hwl] at h
                        by_cases hct : (allowedPubkeysOf env).contains
                            (jsToLower ev.pubkey) = true
                        · rw [if_neg (not_not_intro hct)] at h
                          simp only [VResult.ok.injEq] at h
                          refine ⟨?_, h.symm⟩
                          have hmem : jsToLower ev.pubkey ∈ allowedPubkeysOf env := by
                            simpa [List.elem_iff] using hct
                          simp [allowCheck, hwl, hmem]
                        · rw [if_pos hct] at h
                          simp at h
                      · rw [if_neg hwl] at h
                        simp only [VResult.ok.injEq] at h
                        refine ⟨?_, h.symm⟩
                        simp [allowCheck, hwl]

/-- C10 (amended): in whitelist mode an absent, empty, or all-blank
`NOSTR_ALLOWED_PUBKEYS` parses to the empty allowlist; with an empty
allowlist no claim whatsoever is accepted; and every claim that passes the
kind, timestamp, URL, method, digest and signature checks is rejected
`notWhitelisted` or accepted according to whether its lower-cased pubkey is
among the trimmed, lower-cased configured entries. -/
theorem validate_whitelist_mode (sha : List Nat → List Nat)
    (verify : List Nat → List Nat → List Nat → Bool) (ev : NostrEvent)
    (requestUrl requestMethod : String) (now : Int) (env : Env)
    (hmode : authModeOf env = "whitelist") :
    (env.NOSTR_ALLOWED_PUBKEYS = none → allowedPubkeysOf env = []) ∧
    (∀ sAll, env.NOSTR_ALLOWED_PUBKEYS = some sAll →
      (∀ e ∈ splitOnChar ',' sAll.toList, jsTrim (String.mk e) = "") →
      allowedPubkeysOf env = []) ∧
    (allowedPubkeysOf env = [] →
      ∀ p, validate sha verify ev requestUrl requestMethod now env ≠ .ok p) ∧
    (kindCheck ev = true → timeCheck ev now = true →
      urlCheck ev requestUrl = true → methodCheck ev requestMethod = true →
      digestCheck sha ev = true → sigCheck sha verify ev = true →
      ((validate sha verify ev requestUrl requestMethod now env =
          .rejected .notWhitelisted ↔
        (allowedPubkeysOf env).contains (jsToLower ev.pubkey) = false) ∧
       (validate sha verify ev requestUrl requestMethod now env =
          .ok ev.pubkey ↔
        (allowedPubkeysOf env).contains (jsToLower ev.pubkey) = true))) := by
  refine ⟨?_, ?_, ?_, ?_⟩
  · intro hnone
    unfold allowedPubkeysOf
    rw [hnone]
    rfl
  · intro sAll hsome hblank
    unfold allowedPubkeysOf
    rw [hsome]
    simp only [Option.getD_some]
    rw [List.filter_eq_nil_iff]
    intro a ha
    obtain ⟨e, he, hae⟩ := List.mem_map.mp ha
    rw [← hae]
    simp [hblank e he, jsToLower]
  · intro hempty p hok
    have hallow := (validate_ok_implies_allow sha verify ev requestUrl
      requestMethod now env p hok).1
    rw [allowCheck, hmode, hempty] at hallow
    simp at hallow
  · intro hkc htc hcu hcm hdc hsc
    rw [validate_reaches_digest sha verify ev requestUrl requestMethod now env
      hkc htc hcu hcm]
    have htail := validateFromDigest_cases sha verify ev env
    have hallow : allowCheck ev env =
        (allowedPubkeysOf env).contains (jsToLower ev.pubkey) := by
      simp [allowCheck, hmode]
    constructor
    · rw [htail.2.2.1]
      simp [hdc, hsc, hallow]
    · rw [htail.2.2.2.1 ev.pubkey]
      simp [hdc, hsc, hallow]

/-! ### Witnesses and counterexamples for the check-level claims -/

/-- Witness for the digest comparison at a concrete mismatching input. -/
theorem validate_digest_comparison_witness :
    validate shaNull verifyTrue badIdEv "https://e.com/" "GET" 100 openEnv =
      .rejected .digestMismatch :=
  (validate_digest_comparison shaNull verifyTrue badIdEv "https://e.com/" "GET"
    100 openEnv (by decide)).mpr (by decide)

/-- Counterexample to C2 as frozen: a claim whose recomputed digest differs
from its `claimId` but whose timestamp check already fails is rejected
`expired`, not `digestMismatch`. -/
theorem digest_mismatch_not_global_counterexample :
    bytesToHex (shaNull (utf8Bytes (serializeEvent badIdEv))) ≠ badIdEv.id ∧
    validate shaNull verifyTrue badIdEv "https://e.com/" "GET" 1000 openEnv ≠
      .rejected .digestMismatch := by decide

/-- Witness for the timestamp window: a stale claim is `expired`, and at
exactly 60 seconds validation proceeds to the URL stage. -/
theorem validate_expired_window_witness :
    validate shaNull verifyTrue goodEv "https://e.com/" "GET" 200 openEnv =
      .rejected .expired ∧
    validate shaNull verifyTrue goodEv "https://e.com/" "GET" 160 openEnv =
      validateFromUrl shaNull verifyTrue goodEv "https://e.com/" "GET" openEnv :=
  ⟨(validate_expired_window shaNull verifyTrue goodEv "https://e.com/" "GET"
      200 openEnv (by decide)).1 (by decide),
   (validate_expired_window shaNull verifyTrue goodEv "https://e.com/" "GET"
      160 openEnv (by decide)).2 (by decide)⟩

/-- Counterexample to C3 as frozen: a stale claim of the wrong kind is
rejected `wrongKind`, not `expired` — the kind field is not irrelevant. -/
theorem expired_not_regardless_counterexample :
    60 < ((1000 : Int) - badKindEv.created_at).natAbs ∧
    validate shaNull verifyTrue badKindEv "https://e.com/" "GET" 1000 openEnv ≠
      .rejected .expired := by decide

/-- Witness for the first-pair binding characterization at a concrete
passing input. -/
theorem validate_binding_first_pairs_witness :
    validate shaNull verifyTrue goodEv "https://e.com/" "GET" 100 openEnv ≠
      .rejected .urlMismatch ∧
    validate shaNull verifyTrue goodEv "https://e.com/" "GET" 100 openEnv ≠
      .rejected .methodMismatch :=
  (validate_binding_first_pairs shaNull verifyTrue goodEv "https://e.com/"
    "GET" 100 openEnv (by decide) (by decide) (by decide)).1.mpr (by decide)

/-- Counterexample to C4 as frozen: a claim with two `u` pairs (not exactly
one) still proceeds past the URL and method checks — all the way to
acceptance — because only the first pair is consulted. -/
theorem exactly_one_pair_counterexample :
    (dupUrlEv.tags.filter (fun t => t.head? == some "u")).length = 2 ∧
    validate shaNull verifyTrue dupUrlEv "https://e.com/" "GET" 100 openEnv =
      .ok "ab" := by decide

/-- Witness for the whitelist characterization: the configured entry
`" AB "` trims and lowers to `ab`, so `goodEv` is accepted; and with an
all-blank configuration nothing is accepted. -/
theorem validate_whitelist_mode_witness :
    validate shaNull verifyTrue goodEv "https://e.com/" "GET" 100 wlEnv =
      .ok "ab" ∧
    ∀ p, validate shaNull verifyTrue goodEv "https://e.com/" "GET" 100
      wlEmptyEnv ≠ .ok p :=
  ⟨((validate_whitelist_mode shaNull verifyTrue goodEv "https://e.com/" "GET"
      100 wlEnv (by decide)).2.2.2 (by decide) (by decide) (by decide)
      (by decide) (by decide) (by decide)).2.mpr (by decide),
   (validate_whitelist_mode shaNull verifyTrue goodEv "https://e.com/" "GET"
      100 wlEmptyEnv (by decide)).2.2.1 (by decide)⟩

/-- Counterexample to C10 as frozen: in whitelist mode with an all-blank
allowlist, a claim with the wrong kind is rejected `wrongKind`, not
`notWhitelisted` — the other fields still matter for the reason. -/
theorem notWhitelisted_not_regardless_counterexample :
    authModeOf wlEmptyEnv = "whitelist" ∧ allowedPubkeysOf wlEmptyEnv = [] ∧
    validate shaNull verifyTrue badKindEv "https://e.com/" "GET" 100
      wlEmptyEnv ≠ .rejected .notWhitelisted := by decide

/-! ### The header pattern claim -/

/-- Taking while a predicate holds over an all-satisfying prefix. -/
theorem takeWhile_append_of_all {α} (f : α → Bool) (w p : List α)
    (h : ∀ c ∈ w, f c = true) :
    (w ++ p).takeWhile f = w ++ p.takeWhile f := by
  induction w with
  | nil => simp
  | cons a t ih =>
    have ha := h a (by simp)
    simp only [List.cons_append, List.takeWhile_cons, ha, if_true]
    rw [ih (fun c hc => h c (by simp [hc]))]

/-- Dropping while a predicate holds over an all-satisfying prefix. -/
theorem dropWhile_append_of_all {α} (f : α → Bool) (w p : List α)
    (h : ∀ c ∈ w, f c = true) :
    (w ++ p).dropWhile f = p.dropWhile f := by
  induction w with
  | nil => simp
  | cons a t ih =>
    have ha := h a (by simp)
    simp only [List.cons_append, List.dropWhile_cons, ha, if_true]
    exact ih (fun c hc => h c (by simp [hc]))

/-- If the regex model matches, the header has the `Nostr <payload>` shape. -/
theorem nostrPattern_of_match (s : String) (payload : String)
    (h : matchNostrAuth s = some payload) : NostrPatternHolds s := by
  unfold matchNostrAuth at h
  by_cases hp : (s.toList.take 5).map asciiLower ≠ "nostr".toList
  · rw [if_pos hp] at h
    exact absurd h (by simp)
  · rw [if_neg hp] at h
    push_neg at hp
    by_cases hw : (s.toList.drop 5).takeWhile isJsWhitespace = []
    · rw [if_pos hw] at h
      exact absurd h (by simp)
    · rw [if_neg hw] at h
      by_cases hq : (s.toList.drop 5).dropWhile isJsWhitespace = []
      · rw [if_pos hq] at h
        simp only [List.getLast?_eq_getLast _ hw] at h
        by_cases hcond :
            2 ≤ ((s.toList.drop 5).takeWhile isJsWhitespace).length ∧
            ¬ isLineTerminator
              (((s.toList.drop 5).takeWhile isJsWhitespace).getLast hw) = true
        · have hsplit : s.toList =
              s.toList.take 5 ++
                ((s.toList.drop 5).takeWhile isJsWhitespace).dropLast ++
              [((s.toList.drop 5).takeWhile isJsWhitespace).getLast hw] := by
            rw [List.append_assoc, List.dropLast_append_getLast hw]
            conv_lhs => rw [← List.take_append_drop 5 s.toList]
            rw [List.append_cancel_left_eq]
            conv_lhs => rw [← List.takeWhile_append_dropWhile
              (p := isJsWhitespace) (l := s.toList.drop 5)]
            rw [hq, List.append_nil]
          refine ⟨s.toList.take 5,
            ((s.toList.drop 5).takeWhile isJsWhitespace).dropLast,
            [((s.toList.drop 5).takeWhile isJsWhitespace).getLast hw],
            hsplit, hp, ?_, ?_, ?_, ?_⟩
          · intro hnil
            have h2 := hcond.1
            have hlen' := congrArg List.length hnil
            rw [List.length_dropLast] at hlen'
            simp only [List.length_nil] at hlen'
            omega
          · intro c hc
            exact List.mem_takeWhile_imp (List.dropLast_subset _ hc)
          · simp
          · intro c hc
            rw [List.mem_singleton] at hc
            subst hc
            simpa using hcond.2
        · rw [if_neg hcond] at h
          exact absurd h (by simp)
      · rw [if_neg hq] at h
        by_cases hlt : ((s.toList.drop 5).dropWhile isJsWhitespace).any
            isLineTerminator = true
        · rw [if_pos hlt] at h
          exact absurd h (by simp)
        · rw [if_neg hlt] at h
          refine ⟨s.toList.take 5,
            (s.toList.drop 5).takeWhile isJsWhitespace,
            (s.toList.drop 5).dropWhile isJsWhitespace, ?_, hp, hw, ?_, hq, ?_⟩
          · conv_lhs => rw [← List.take_append_drop 5 s.toList]
            rw [List.append_assoc, List.append_cancel_left_eq]
            rw [List.takeWhile_append_dropWhile]
          · intro c hc
            exact List.mem_takeWhile_imp hc
          · intro c hc
            rcases hb : isLineTerminator c with _ | _
            · rfl
            · exact absurd (List.any_eq_true.mpr ⟨c, hc, hb⟩) hlt

/-- If the header has the `Nostr <payload>` shape, the regex model matches. -/
theorem match_isSome_of_pattern (s : String) (h : NostrPatternHolds s) :
    (matchNostrAuth s).isSome := by
  obtain ⟨scheme, w, p, hsplit, hlower, hwne, hws, hpne, hplt⟩ := h
  have hlen : scheme.length = 5 := by
    have := congrArg List.length hlower
    simpa using this
  have htake : s.toList.take 5 = scheme := by
    rw [hsplit, List.append_assoc]
    exact List.take_left' hlen
  have hdrop : s.toList.drop 5 = w ++ p := by
    rw [hsplit, List.append_assoc]
    exact List.drop_left' hlen
  unfold matchNostrAuth
  rw [if_neg (by rw [htake]; exact not_not_intro hlower)]
  rw [hdrop, takeWhile_append_of_all _ _ _ hws, dropWhile_append_of_all _ _ _ hws]
  by_cases hq : p.dropWhile isJsWhitespace = []
  · have hpws : ∀ c ∈ p, isJsWhitespace c = true :=
      fun c hc => by simpa using List.dropWhile_eq_nil_iff.mp hq c hc
    have hptake : p.takeWhile isJsWhitespace = p := by
      rw [List.takeWhile_eq_self_iff]
      intro c hc
      simpa using hpws c hc
    rw [hptake, hq]
    have hwp : w ++ p ≠ [] := by
      intro hcontra
      exact hpne (List.append_eq_nil.mp hcontra).2
    rw [if_neg hwp, if_pos rfl]
    simp only [List.getLast?_eq_getLast _ hwp]
    rw [if_pos ?_]
    · simp
    · constructor
      · have h1 : 1 ≤ w.length := List.length_pos.mpr hwne
        have h2 : 1 ≤ p.length := List.length_pos.mpr hpne
        simp only [List.length_append]
        omega
      · rw [List.getLast_append_of_ne_nil hpne]
        simp [hplt (p.getLast hpne) (List.getLast_mem hpne)]
  · have hwq : w ++ p.takeWhile isJsWhitespace ≠ [] := by
      intro hcontra
      exact hwne (List.append_eq_nil.mp hcontra).1
    rw [if_neg hwq, if_neg hq]
    rw [if_neg ?_]
    · simp
    · intro hany
      obtain ⟨c, hc, hlt⟩ := List.any_eq_true.mp hany
      have hcp : c ∈ p := (List.dropWhile_sublist _).subset hc
      rw [hplt c hcp] at hlt
      exact Bool.false_ne_true hlt

/-- The regex model fails exactly off the pattern. -/
theorem matchNostrAuth_eq_none_iff (s : String) :
    matchNostrAuth s = none ↔ ¬ NostrPatternHolds s := by
  constructor
  · intro hnone hholds
    have := match_isSome_of_pattern s hholds
    rw [hnone] at this
    simp at this
  · intro hnot
    cases hm : matchNostrAuth s with
    | none => rfl
    | some payload => exact absurd (nostrPattern_of_match s payload hm) hnot

/-- C8: for every present header value, decoding fails with the
invalid-format rejection (spec kind `MissingOrMalformedHeader`) exactly when
the value does not match the case-insensitive `Nostr <payload>` pattern — in
particular, for every base64 and JSON oracle alike, so neither is consulted;
and when the pattern matches but the payload fails `atob` or yields JSON
that fails to parse, decoding fails with the base64-or-JSON rejection (spec
kind `MalformedCredential`). -/
theorem decode_header_pattern (h : String) (ab : String → Option String)
    (parse : String → Option JsVal) :
    (decodeAuth ab parse (some h) = .error .invalidFormat ↔
      ¬ NostrPatternHolds h) ∧
    (∀ payload, matchNostrAuth h = some payload →
      (ab payload = none ∨ ∃ d, ab payload = some d ∧ parse d = none) →
      decodeAuth ab parse (some h) = .error .invalidBase64OrJson) := by
  constructor
  · cases hm : matchNostrAuth h with
    | none =>
      refine iff_of_true ?_ ((matchNostrAuth_eq_none_iff h).mp hm)
      simp [decodeAuth, hm]
    | some payload =>
      refine iff_of_false ?_ ?_
      · simp only [decodeAuth, hm]
        cases hab : ab payload with
        | none => simp
        | some d => cases hp : parse d <;> simp [hp]
      · intro hnot
        exact absurd (nostrPattern_of_match h payload hm) hnot
  · intro payload hm hfail
    simp only [decodeAuth, hm]
    rcases hfail with hab | ⟨d, hab, hp⟩
    · rw [hab]
    · simp only [hab, hp]

/-- Witness for the decode pattern claim: `Bearer xyz` is rejected as
invalid format; `Nostr ???` matches the pattern but fails base64, giving the
base64-or-JSON rejection. -/
theorem decode_header_pattern_witness :
    decodeAuth atobModel (fun _ => none) (some "Bearer xyz") =
      .error .invalidFormat ∧
    decodeAuth atobModel (fun _ => none) (some "Nostr ???") =
      .error .invalidBase64OrJson :=
  ⟨(decode_header_pattern "Bearer xyz" atobModel (fun _ => none)).1.mpr
      ((matchNostrAuth_eq_none_iff "Bearer xyz").mp (by decide)),
   (decode_header_pattern "Nostr ???" atobModel (fun _ => none)).2 "???"
      (by decide) (Or.inl (by decide))⟩

/-! ### The malformed-credential safety claim -/

/-- C5 (code bug at the failing input): the header `Nostr bnVsbA==` carries
the base64 of the four characters `null`, so decoding succeeds — `atob`
yields `"null"` and any JSON parser (like the real `JSON.parse`) maps it to
the JSON value `null` — yet the validator's very first step, the `event.kind`
access of line 73, is a property read on `null`, which throws a TypeError
rather than producing one of the defined rejection kinds.  The
`await validateNip98Auth(request, env)` at line 324 sits outside every
`try`/`catch`, so the exception escapes the worker instead of becoming a 401
rejection. -/
theorem malformed_null_credential_throws (parse : String → Option JsVal)
    (hparse : parse "null" = some JsVal.null) :
    decodeAuth atobModel parse (some "Nostr bnVsbA==") = .ok JsVal.null ∧
    jsMember JsVal.null "kind" = .thrown := by
  constructor
  · have h1 : matchNostrAuth "Nostr bnVsbA==" = some "bnVsbA==" := by decide
    have h2 : atobModel "bnVsbA==" = some "null" := by decide
    simp only [decodeAuth, h1, h2, hparse]
  · rfl

/-- Witness for the null-credential code bug with a concrete JSON oracle. -/
theorem malformed_null_credential_throws_witness :
    decodeAuth atobModel
      (fun str => if str = "null" then some JsVal.null else none)
      (some "Nostr bnVsbA==") = .ok JsVal.null ∧
    jsMember JsVal.null "kind" = .thrown :=
  malformed_null_credential_throws
    (fun str => if str = "null" then some JsVal.null else none) (by simp)

/-! ### Order theory of the default-comparator key -/

/-- `lexLe` is total. -/
theorem lexLe_total : ∀ a b : List Char, lexLe a b = true ∨ lexLe b a = true := by
  intro a
  induction a with
  | nil => intro b; left; rfl
  | cons x xs ih =>
    intro b
    cases b with
    | nil => right; rfl
    | cons y ys =>
      by_cases hxy : x.toNat < y.toNat
      · left; simp [lexLe, hxy]
      · by_cases hyx : y.toNat < x.toNat
        · right; simp [lexLe, hyx]
        · rcases ih ys with h | h
          · left; simp [lexLe, hxy, hyx, h]
          · right; simp [lexLe, hxy, hyx, h]

/-- `lexLe` is antisymmetric: mutual comparability forces equality
(code-unit comparison is injective on characters). -/
theorem lexLe_antisymm : ∀ a b : List Char,
    lexLe a b = true → lexLe b a = true → a = b := by
  intro a
  induction a with
  | nil =>
    intro b _ hba
    cases b with
    | nil => rfl
    | cons y ys => simp [lexLe] at hba
  | cons x xs ih =>
    intro b hab hba
    cases b with
    | nil => simp [lexLe] at hab
    | cons y ys =>
      by_cases hxy : x.toNat < y.toNat
      · simp [lexLe, hxy, Nat.lt_asymm hxy] at hba
      · by_cases hyx : y.toNat < x.toNat
        · simp [lexLe, hyx] at hab
          simp [hxy] at hab
        · have hx : x = y := by
            have hn : x.toNat = y.toNat := Nat.le_antisymm
              (Nat.not_lt.mp hyx) (Nat.not_lt.mp hxy)
            have := congrArg Char.ofNat hn
            rwa [Char.ofNat_toNat, Char.ofNat_toNat] at this
          subst hx
          simp [lexLe, hxy, hyx] at hab hba
          rw [ih ys hab hba]

/-- `lexLe` is transitive. -/
theorem lexLe_trans : ∀ a b c : List Char,
    lexLe a b = true → lexLe b c = true → lexLe a c = true := by
  intro a
  induction a with
  | nil => intro b c _ _; rfl
  | cons x xs ih =>
    intro b c hab hbc
    cases b with
    | nil => simp [lexLe] at hab
    | cons y ys =>
      cases c with
      | nil => simp [lexLe] at hbc
      | cons z zs =>
        simp only [lexLe] at hab hbc ⊢
        by_cases hxy : x.toNat < y.toNat
        · by_cases hyz : y.toNat < z.toNat
          · simp [Nat.lt_trans hxy hyz]
          · by_cases hzy : z.toNat < y.toNat
            · simp [hyz, hzy] at hbc
            · have hyzeq : y.toNat = z.toNat := Nat.le_antisymm
                (Nat.not_lt.mp hzy) (Nat.not_lt.mp hyz)
              simp [hyzeq ▸ hxy]
        · by_cases hyx : y.toNat < x.toNat
          · simp [hxy, hyx] at hab
          · have hxyeq : x.toNat = y.toNat := Nat.le_antisymm
              (Nat.not_lt.mp hyx) (Nat.not_lt.mp hxy)
            simp [hxy, hyx] at hab
            by_cases hyz : y.toNat < z.toNat
            · simp [hxyeq ▸ hyz]
            · by_cases hzy : z.toNat < y.toNat
              · simp [hyz, hzy] at hbc
              · simp [hyz, hzy] at hbc
                have hxz : ¬ x.toNat < z.toNat := by omega
                have hzx : ¬ z.toNat < x.toNat := by omega
                simp [hxz, hzx, ih ys zs hab hbc]

/-- Inserting keeps the list a permutation. -/
theorem insertEntry_perm (p : List Char × List Char) :
    ∀ l, List.Perm (insertEntry p l) (p :: l) := by
  intro l
  induction l with
  | nil => simp [insertEntry]
  | cons q qs ih =>
    unfold insertEntry
    by_cases h : lexLe (entryKey p) (entryKey q) = true
    · simp [h]
    · simp only [h, if_false]
      exact (ih.cons q).trans (List.Perm.swap p q qs)

/-- The model sort is a permutation. -/
theorem sortEntries_perm : ∀ l, List.Perm (sortEntries l) l := by
  intro l
  induction l with
  | nil => simp [sortEntries]
  | cons p ps ih =>
    unfold sortEntries
    exact (insertEntry_perm p (sortEntries ps)).trans (ih.cons p)

/-- Insertion preserves sortedness. -/
theorem insertEntry_sorted (p : List Char × List Char) :
    ∀ l, List.Pairwise entryLe l → List.Pairwise entryLe (insertEntry p l) := by
  intro l
  induction l with
  | nil => intro _; simp [insertEntry, List.pairwise_singleton]
  | cons q qs ih =>
    intro hp
    rw [List.pairwise_cons] at hp
    unfold insertEntry
    by_cases h : lexLe (entryKey p) (entryKey q) = true
    · rw [if_pos h]
      rw [List.pairwise_cons]
      refine ⟨?_, List.pairwise_cons.mpr hp⟩
      intro b hb
      rcases List.mem_cons.mp hb with hb | hb
      · exact hb ▸ h
      · exact lexLe_trans _ _ _ h (hp.1 b hb)
    · rw [if_neg h]
      rw [List.pairwise_cons]
      refine ⟨?_, ih hp.2⟩
      intro b hb
      have hb' := (insertEntry_perm p qs).mem_iff.mp hb
      rcases List.mem_cons.mp hb' with hb2 | hb2
      · rw [hb2]
        rcases lexLe_total (entryKey p) (entryKey q) with ht | ht
        · exact absurd ht h
        · exact ht
      · exact hp.1 b hb2

/-- The model sort sorts. -/
theorem sortEntries_sorted : ∀ l, List.Pairwise entryLe (sortEntries l) := by
  intro l
  induction l with
  | nil => simp [sortEntries]
  | cons p ps ih =>
    unfold sortEntries
    exact insertEntry_sorted p (sortEntries ps) ih

/-- Two sorted permutations whose members have pairwise-distinct keys are
equal. -/
theorem sorted_perm_eq : ∀ (l1 l2 : List (List Char × List Char)),
    List.Perm l1 l2 → List.Pairwise entryLe l1 → List.Pairwise entryLe l2 →
    (∀ e1 ∈ l1, ∀ e2 ∈ l1, entryKey e1 = entryKey e2 → e1 = e2) →
    l1 = l2 := by
  intro l1
  induction l1 with
  | nil => intro l2 hperm _ _ _; exact (hperm.nil_eq).symm.symm
  | cons a t1 ih =>
    intro l2 hperm hs1 hs2 hinj
    cases l2 with
    | nil => exact absurd hperm.symm.nil_eq (by simp)
    | cons b t2 =>
      have hab : a = b := by
        by_contra hne
        have hbmem : b ∈ a :: t1 := hperm.mem_iff.mpr (by simp)
        have hamem : a ∈ b :: t2 := hperm.mem_iff.mp (by simp)
        have hbt1 : b ∈ t1 := by
          rcases List.mem_cons.mp hbmem with hx | hx
          · exact absurd hx.symm hne
          · exact hx
        have hat2 : a ∈ t2 := by
          rcases List.mem_cons.mp hamem with hx | hx
          · exact absurd hx hne
          · exact hx
        have h1 : entryLe a b := (List.pairwise_cons.mp hs1).1 b hbt1
        have h2 : entryLe b a := (List.pairwise_cons.mp hs2).1 a hat2
        have hk : entryKey a = entryKey b := lexLe_antisymm _ _ h1 h2
        exact hne (hinj a (by simp) b (by simp [hbt1]) hk)
      subst hab
      have htperm : List.Perm t1 t2 := hperm.cons_inv
      rw [ih t2 htperm (List.pairwise_cons.mp hs1).2
        (List.pairwise_cons.mp hs2).2
        (fun e1 he1 e2 he2 hk => hinj e1 (by simp [he1]) e2 (by simp [he2]) hk)]

/-! ### Query-string and parser lemmas for the canonicalization claim -/

/-- Taking while a predicate holds ignores an appended tail when something in
the first part already fails the predicate. -/
theorem takeWhile_append_of_mem_not {α} (f : α → Bool) (l m : List α) (x : α)
    (hx : x ∈ l) (hfx : f x = false) :
    (l ++ m).takeWhile f = l.takeWhile f := by
  induction l with
  | nil => cases hx
  | cons a t ih =>
    cases hfa : f a with
    | false => simp [List.takeWhile_cons, hfa]
    | true =>
      have hxt : x ∈ t := by
        rcases List.mem_cons.mp hx with hx1 | hx1
        · rw [hx1] at hfx; rw [hfx] at hfa; cases hfa
        · exact hx1
      simp [List.takeWhile_cons, hfa, ih hxt]

/-- Dropping while a predicate holds passes an appended tail through when
something in the first part fails the predicate. -/
theorem dropWhile_append_of_mem_not {α} (f : α → Bool) (l m : List α) (x : α)
    (hx : x ∈ l) (hfx : f x = false) :
    (l ++ m).dropWhile f = l.dropWhile f ++ m := by
  induction l with
  | nil => cases hx
  | cons a t ih =>
    cases hfa : f a with
    | false => simp [List.dropWhile_cons, hfa]
    | true =>
      have hxt : x ∈ t := by
        rcases List.mem_cons.mp hx with hx1 | hx1
        · rw [hx1] at hfx; rw [hfx] at hfa; cases hfa
        · exact hx1
      simp [List.dropWhile_cons, hfa, ih hxt]

/-- Splitting always yields at least one segment. -/
theorem splitOnChar_ne_nil (sep : Char) : ∀ l, splitOnChar sep l ≠ [] := by
  intro l
  cases l with
  | nil => simp [splitOnChar]
  | cons c rest =>
    unfold splitOnChar
    cases splitOnChar sep rest with
    | nil => simp
    | cons st ss =>
      by_cases h : c = sep <;> simp [h]

/-- Appending a separator appends one empty segment. -/
theorem splitOnChar_append_sep (sep : Char) :
    ∀ l, splitOnChar sep (l ++ [sep]) = splitOnChar sep l ++ [[]] := by
  intro l
  induction l with
  | nil => simp [splitOnChar]
  | cons c t ih =>
    show splitOnChar sep (c :: (t ++ [sep])) = _
    unfold splitOnChar
    rw [ih]
    cases hs : splitOnChar sep t with
    | nil => exact absurd hs (splitOnChar_ne_nil sep t)
    | cons st ss =>
      by_cases h : c = sep <;> simp [h]

/-- A trailing `&` adds only an empty segment, which the entries parser
skips. -/
theorem queryEntries_append_amp (q : List Char) :
    queryEntries (q ++ ['&']) = queryEntries q := by
  unfold queryEntries splitAmp
  rw [splitOnChar_append_sep]
  rw [List.filter_append]
  simp

/-- Parsing `u ++ "&"` when `u` parses and already has a query: the `&`
lands at the end of the query. -/
theorem parseUrlModel_append_amp (u : String) (p : UrlParts)
    (hp : parseUrlModel u = some p) (hq : '?' ∈ u.toList) :
    parseUrlModel (u ++ "&") = some ⟨p.origin, p.pathname, p.query ++ ['&']⟩ := by
  have hlist : (u ++ "&").toList = u.toList ++ ['&'] := rfl
  have hqf : (fun x => decide (x ≠ '?')) '?' = false := by simp
  unfold parseUrlModel at hp ⊢
  rw [hlist]
  by_cases hcont : u.toList.contains '#' = true
  · rw [if_pos hcont] at hp
    cases hp
  · have hcont' : (u.toList ++ ['&']).contains '#' ≠ true := by
      intro hmem
      have : '#' ∈ u.toList ++ ['&'] := List.elem_iff.mp hmem
      rcases List.mem_append.mp this with hmem1 | hmem1
      · exact hcont (List.elem_iff.mpr hmem1)
      · simp at hmem1
    rw [if_neg hcont] at hp
    rw [if_neg hcont']
    rw [takeWhile_append_of_mem_not _ _ _ '?' hq hqf]
    rw [dropWhile_append_of_mem_not _ _ _ '?' hq hqf]
    cases hb : parseBase (u.toList.takeWhile (· ≠ '?')) with
    | none => rw [hb] at hp; cases hp
    | some basePair =>
      obtain ⟨origin0, path0⟩ := basePair
      simp only [hb] at hp ⊢
      have hdne : u.toList.dropWhile (· ≠ '?') ≠ [] := by
        intro hnil
        have := List.dropWhile_eq_nil_iff.mp hnil '?' hq
        simp at this
      cases hd : u.toList.dropWhile (· ≠ '?') with
      | nil => exact absurd hd hdne
      | cons a t =>
        rw [hd] at hp
        simp only [Option.some.injEq] at hp
        rw [← hp]
        simp [hd]

/-- C6 (amended): canonicalization is deterministic; two parseable URLs with
the same origin and path whose decoded query entries are permutations of one
another canonicalize to the same string provided distinct entries have
distinct comma-joined `name,value` keys (the default array comparator
stringifies each `[name, value]` pair, so two pairs whose keys collide keep
their original relative order and can break the invariance); and appending a
single `&` after an existing query leaves the canonical form unchanged. -/
theorem canonicalize_invariance :
    (∀ u v : String, u = v →
      normalizeUrlForComparison u = normalizeUrlForComparison v) ∧
    (∀ (u1 u2 : String) (p1 p2 : UrlParts),
      parseUrlModel u1 = some p1 → parseUrlModel u2 = some p2 →
      p1.origin = p2.origin → p1.pathname = p2.pathname →
      List.Perm (queryEntries p1.query) (queryEntries p2.query) →
      (∀ e1 ∈ queryEntries p1.query, ∀ e2 ∈ queryEntries p1.query,
        entryKey e1 = entryKey e2 → e1 = e2) →
      normalizeUrlForComparison u1 = normalizeUrlForComparison u2) ∧
    (∀ (u : String) (p : UrlParts),
      parseUrlModel u = some p → '?' ∈ u.toList →
      normalizeUrlForComparison (u ++ "&") = normalizeUrlForComparison u) := by
  refine ⟨fun u v h => by rw [h], ?_, ?_⟩
  · intro u1 u2 p1 p2 hp1 hp2 ho hpath hperm hinj
    have hsorteq : sortEntries (queryEntries p1.query) =
        sortEntries (queryEntries p2.query) := by
      apply sorted_perm_eq
      · exact ((sortEntries_perm _).trans hperm).trans (sortEntries_perm _).symm
      · exact sortEntries_sorted _
      · exact sortEntries_sorted _
      · intro e1 he1 e2 he2 hk
        exact hinj e1 ((sortEntries_perm _).subset he1)
          e2 ((sortEntries_perm _).subset he2) hk
    unfold normalizeUrlForComparison
    simp only [hp1, hp2]
    rw [ho, hpath, hsorteq]
  · intro u p hp hq
    unfold normalizeUrlForComparison
    simp only [parseUrlModel_append_amp u p hp hq, hp]
    rw [queryEntries_append_amp]

/-- Witness for the canonicalization invariance at concrete inputs: swapped
query parameters with distinct keys canonicalize equal, and a trailing `&`
after a query is dropped. -/
theorem canonicalize_invariance_witness :
    normalizeUrlForComparison "https://e.com/x?b=2&a=1" =
      normalizeUrlForComparison "https://e.com/x?a=1&b=2" ∧
    normalizeUrlForComparison "https://e.com/x?a=1&" =
      normalizeUrlForComparison "https://e.com/x?a=1" :=
  ⟨canonicalize_invariance.2.1 "https://e.com/x?b=2&a=1"
      "https://e.com/x?a=1&b=2"
      ⟨"https://e.com".toList, "/x".toList, "b=2&a=1".toList⟩
      ⟨"https://e.com".toList, "/x".toList, "a=1&b=2".toList⟩
      (by decide) (by decide) (by decide) (by decide) (by decide) (by decide),
   canonicalize_invariance.2.2 "https://e.com/x?a=1"
      ⟨"https://e.com".toList, "/x".toList, "a=1".toList⟩
      (by decide) (by decide)⟩

/-- Counterexample to C6 as frozen: the queries `a%2Cb=c&a=b%2Cc` and
`a=b%2Cc&a%2Cb=c` decode to the same two (name, value) pairs in swapped
order — the URLs differ only in query-parameter order — yet their
canonicalizations differ, because both pairs stringify to the key `a,b,c`
and the stable sort keeps their relative order.  Likewise a URL with a
trailing `&` but no query keeps the `&` in its path, so it does not
canonicalize like its `&`-free variant. -/
theorem canonicalize_order_counterexample :
    queryEntries ("a%2Cb=c&a=b%2Cc".toList) =
      [(['a', ',', 'b'], ['c']), (['a'], ['b', ',', 'c'])] ∧
    queryEntries ("a=b%2Cc&a%2Cb=c".toList) =
      [(['a'], ['b', ',', 'c']), (['a', ',', 'b'], ['c'])] ∧
    ("https://e.com/x?a%2Cb=c&a=b%2Cc".toList.takeWhile (· ≠ '?')) =
      ("https://e.com/x?a=b%2Cc&a%2Cb=c".toList.takeWhile (· ≠ '?')) ∧
    normalizeUrlForComparison "https://e.com/x?a%2Cb=c&a=b%2Cc" ≠
      normalizeUrlForComparison "https://e.com/x?a=b%2Cc&a%2Cb=c" ∧
    normalizeUrlForComparison "https://e.com/x&" ≠
      normalizeUrlForComparison "https://e.com/x" := by
  refine ⟨by decide, by decide, by decide, by decide, by decide⟩

end PodProxy
